import Mathlib

/-!
Verification of the profiling core of foundation_lib (src/foundation/profile.c).

The C module is embedded shallowly as a sequential (single-actor) state machine:
every atomic compare-and-swap loop is interpreted against the current state, in
which it succeeds at the first retry, which is exactly the behaviour of the C
code when a single thread of control (one producer, or the I/O drain, but never
both at the same instant) touches the shared words.  External collaborators are
modelled as explicit state ("nowTick" for time_current, "cpu" for
thread_hardware) or as parameters ("tid" for thread_id).  Machine integers:
slots and link fields are 16-bit indices, kept as Nat (all reachable values are
below 65536; the explicit casts in the C source are identities there); the
tagged free-list head, a 32-bit word packing slot (low 16 bits) and ABA tag
(high 16 bits), is modelled as a pair with the tag reduced mod 2 ^ 16 exactly
as the C mask does; tick counts are Int (tick_t is int64_t, never near
overflow in any claim considered here).

Loops whose termination depends on heap well-formedness (the previous-pointer
walk of profile_end_block, the recursive stream walk, the root drain) take an
explicit fuel argument and return none when it runs out; every theorem below
either supplies provably sufficient fuel or takes successful termination as a
hypothesis.
-/

/-- Payload part of a profile block: the 58 packed bytes emitted to the sink
(struct _profile_block_data).  The name field always holds exactly 26 bytes. -/
structure BlockData where
  id : Int
  parentid : Int
  processor : Nat
  thread : Nat
  start : Int
  endt : Int
  name : List Nat
deriving DecidableEq, Repr

/-- One 64-byte record of the pool: payload plus the three in-memory 16-bit
link fields (struct _profile_block). -/
structure PBlock where
  data : BlockData
  previous : Nat
  sibling : Nat
  child : Nat
deriving DecidableEq, Repr

/-- The tagged free-list head word _profile_free: the C code packs the slot in
the low 16 bits and an ABA loop tag in the high 16 bits of one atomic 32-bit
word; we keep the two components side by side. -/
structure FreeWord where
  slot : Nat
  tag : Nat
deriving DecidableEq, Repr

/-- Global state of the profile module: the block pool, the atomic words, the
thread-local current-block indices, the records handed to the sink so far, and
the modelled external inputs (clock, current cpu). -/
structure PState where
  blocks : Nat → PBlock
  free : FreeWord
  loopid : Nat
  counter : Nat
  root : Nat
  tls : Nat → Nat
  sink : List PBlock
  hasWrite : Bool
  enabled : Bool
  nowTick : Int
  ground : Int
  cpu : Nat
  numBlocks : Nat
  warned : Bool
  warnCount : Nat

/-- Name field of 26 NUL bytes (the state of the field after memset). -/
def emptyName : List Nat := List.replicate 26 0

/-- Modelled from the spec: string_copy lives in the string library of this
repository, outside src/.  Its contract (used with a 26-byte destination and
matching the NUL-padded fixed-width name field of the spec together with
MAX_MESSAGE_LENGTH = 25 and the 25-byte segment stride in profile.c) is that
string_copy(dst, limit, src, length) writes min(length, limit - 1) characters
and always NUL-terminates.  All call sites in profile.c write into a freshly
zeroed 26-byte field, so the result is the copied prefix padded with NULs. -/
def copyName (src : List Nat) (len : Nat) : List Nat :=
  (src.take (min len 25) ++ List.replicate 26 0).take 26

/-- Length of a NUL-terminated string stored in a name field (string_length,
also modelled from the spec since it lives outside src/). -/
def cstrLen (l : List Nat) : Nat := (l.takeWhile (fun c => c != 0)).length

/-- Payload after memset. -/
def zeroData : BlockData :=
  { id := 0, parentid := 0, processor := 0, thread := 0, start := 0, endt := 0,
    name := emptyName }

/-- A fully zeroed 64-byte record. -/
def zeroBlock : PBlock := { data := zeroData, previous := 0, sibling := 0, child := 0 }

/-- Overwrite one slot of the pool. -/
def updB (s : PState) (i : Nat) (b : PBlock) : PState :=
  { s with blocks := Function.update s.blocks i b }

/-- _profile_allocate_block: pop the head of the tagged free list; on an empty
list return none and emit the one-shot exhaustion warning.  The loop counter
_profile_loopid is bumped exactly once (the do-while body runs once and the
compare-and-swap succeeds sequentially). -/
def allocate (s : PState) : Option Nat × PState :=
  let freeBlock := s.free.slot
  let lid := s.loopid + 1
  if freeBlock = 0 then
    (none, { s with loopid := lid, warned := true,
                    warnCount := if s.warned then s.warnCount else s.warnCount + 1 })
  else
    (some freeBlock,
      { s with loopid := lid,
               free := { slot := (s.blocks freeBlock).child, tag := lid % 65536 },
               blocks := Function.update s.blocks freeBlock zeroBlock })

/-- _profile_free_block: push a whole child-linked chain (head blockIdx, tail
leafIdx) back onto the free list with one compare-and-swap. -/
def freeBlockChain (s : PState) (blockIdx leafIdx : Nat) : PState :=
  let lid := s.loopid + 1
  let s1 := updB s leafIdx { s.blocks leafIdx with child := s.free.slot }
  { s1 with loopid := lid, free := { slot := blockIdx, tag := lid % 65536 } }

/-- Walk sibling links to the last element of a sibling chain (the inner while
loop of _profile_put_root_block). -/
def siblingLast : Nat → (Nat → PBlock) → Nat → Option Nat
  | 0, _, _ => none
  | fuel + 1, f, b => if (f b).sibling = 0 then some b else siblingLast fuel f (f b).sibling

/-- _profile_put_root_block: publish a completed tree on the lock-free root
list.  Sequentially the first compare-and-swap fails exactly when the root head
is nonzero; in that case the existing list is swapped out, spliced onto the end
of the sibling chain of the tree being published, and the publish retried (the
retry succeeds against the now empty head).  A zero captured sibling on that
path would loop forever in C; the model returns none there. -/
def putRootBlock (fuel : Nat) (s : PState) (blockIdx : Nat) : Option PState :=
  if s.root = 0 then some { s with root := blockIdx }
  else
    let sib := s.root % 65536
    if sib = 0 then none
    else
      let s1 := { s with root := 0 }
      let selfSibling := (s1.blocks blockIdx).sibling
      if selfSibling ≠ 0 then
        match siblingLast fuel s1.blocks selfSibling with
        | none => none
        | some leaf =>
          let s2 := updB s1 sib { s1.blocks sib with previous := leaf }
          let s3 := updB s2 leaf { s2.blocks leaf with sibling := sib }
          some { s3 with root := blockIdx }
      else
        let s2 := updB s1 blockIdx { s1.blocks blockIdx with sibling := sib }
        some { s2 with root := blockIdx }

/-- _profile_put_simple_block: attach a finished event record as first child of
the current open block of thread tid, or publish it as a root tree when the
thread has no open block. -/
def putSimpleBlock (fuel : Nat) (tid : Nat) (blockIdx : Nat) (s : PState) : Option PState :=
  let parentBlock := s.tls tid
  if parentBlock ≠ 0 then
    let nextBlock := (s.blocks parentBlock).child
    let s1 := updB s blockIdx
      { s.blocks blockIdx with previous := parentBlock, sibling := nextBlock }
    let s2 := if nextBlock ≠ 0 then
        updB s1 nextBlock { s1.blocks nextBlock with previous := blockIdx }
      else s1
    some (updB s2 parentBlock { s2.blocks parentBlock with child := blockIdx })
  else putRootBlock fuel s blockIdx

/-- The while loop of _profile_put_message_block: allocate one continuation
record per remaining MAX_MESSAGE_LENGTH = 25 byte segment and chain it through
the child link of the previous segment.  A failed allocation aborts the whole
operation, leaving the already built chain unpublished (the C code just
returns).  Fuel only bounds the number of iterations (len strictly decreases,
so any fuel above the segment count is enough); the Bool tells whether the
loop ran to completion. -/
def messageLoop : Nat → Nat → Int → List Nat → Nat → Nat → PState → Option (PState × Bool)
  | 0, _, _, _, _, _, _ => none
  | fuel + 1, masterIdx, msgId, msg, len, subIdx, s =>
    if len = 0 then some (s, true)
    else
      match allocate s with
      | (none, s1) => some (s1, false)
      | (some c, s1) =>
        let md := (s1.blocks masterIdx).data
        let d : BlockData :=
          { id := msgId + 1
            parentid := (s1.blocks subIdx).data.endt
            processor := md.processor
            thread := md.thread
            start := md.start
            endt := ((s1.counter + 1 : Nat) : Int)
            name := copyName msg len }
        let cSibling := (s1.blocks subIdx).child
        let s2 := { s1 with counter := s1.counter + 1 }
        let s3 := updB s2 c { s2.blocks c with data := d, sibling := cSibling }
        let s4 := if cSibling ≠ 0 then
            updB s3 cSibling { s3.blocks cSibling with previous := c }
          else s3
        let s5 := updB s4 subIdx { s4.blocks subIdx with child := c }
        let s6 := updB s5 c { s5.blocks c with previous := subIdx }
        messageLoop fuel masterIdx msgId (msg.drop 25) (if len > 25 then len - 25 else 0) c s6

/-- _profile_put_message_block: build a master record carrying the event id, a
fresh sequence number in endt, and the first name segment, then the chained
continuation records, then hand the whole chain to the tree. -/
def putMessageBlock (fuel : Nat) (tid : Nat) (msgId : Int) (msg : List Nat) (len : Nat)
    (s : PState) : Option PState :=
  match allocate s with
  | (none, s1) => some s1
  | (some b, s1) =>
    let d : BlockData :=
      { id := msgId
        parentid := 0
        processor := s1.cpu
        thread := tid
        start := s1.nowTick - s1.ground
        endt := ((s1.counter + 1 : Nat) : Int)
        name := copyName msg len }
    let s2 := { s1 with counter := s1.counter + 1 }
    let s3 := updB s2 b { s2.blocks b with data := d }
    match messageLoop fuel b msgId (msg.drop 25) (if len > 25 then len - 25 else 0) b s3 with
    | none => none
    | some (s4, false) => some s4
    | some (s4, true) => putSimpleBlock fuel tid b s4

/-- profile_begin_block: open a span.  With no current block the new record
becomes a root of the open tree of thread tid; otherwise it is inserted at the
head of the child list of the current block. -/
def beginBlock (tid : Nat) (msg : List Nat) (len : Nat) (s : PState) : PState :=
  if !s.enabled then s
  else
    let parent := s.tls tid
    if parent = 0 then
      match allocate s with
      | (none, s1) => s1
      | (some b, s1) =>
        let c := s1.counter + 1
        let d : BlockData :=
          { zeroData with id := (c : Int), name := copyName msg len,
                          processor := s1.cpu, thread := tid,
                          start := s1.nowTick - s1.ground }
        let s2 := { s1 with counter := c }
        let s3 := updB s2 b { s2.blocks b with data := d }
        { s3 with tls := Function.update s3.tls tid b }
    else
      match allocate s with
      | (none, s1) => s1
      | (some b, s1) =>
        let c := s1.counter + 1
        let pblk := s1.blocks parent
        let d : BlockData :=
          { zeroData with id := (c : Int), parentid := pblk.data.id,
                          name := copyName msg len,
                          processor := s1.cpu, thread := tid,
                          start := s1.nowTick - s1.ground }
        let s2 := { s1 with counter := c }
        let s3 := updB s2 b
          { s2.blocks b with data := d, previous := parent, sibling := pblk.child }
        let s4 := if pblk.child ≠ 0 then
            updB s3 pblk.child { s3.blocks pblk.child with previous := b }
          else s3
        let s5 := updB s4 parent { s4.blocks parent with child := b }
        { s5 with tls := Function.update s5.tls tid b }

/-- The backward walk of profile_end_block (the while loop over previous
pointers): step to the previous sibling until the apparent parent lists the
current slot as its first child; the previous pointer of that slot is the true
parent. -/
def parentWalk : Nat → (Nat → PBlock) → Nat → Option Nat
  | 0, _, _ => none
  | fuel + 1, f, cur =>
    if (f ((f cur).previous)).child = cur then some ((f cur).previous)
    else parentWalk fuel f ((f cur).previous)

/-- Stamp the end tick of one block (the first write of profile_end_block). -/
def stampEnd (s : PState) (b : Nat) : PState :=
  updB s b { s.blocks b with data := { (s.blocks b).data with endt := s.nowTick - s.ground } }

/-- profile_end_block: stamp the end tick of the current block of thread tid.
A block with zero previous link is an outermost root of the open tree and goes
to the root list; otherwise the parent walk runs, the thread-local current
moves to the parent, and a processor migration splits the parent span (end it,
then begin a fresh block with the same name). -/
def endBlockF : Nat → Nat → PState → Option PState
  | 0, _, _ => none
  | fuel + 1, tid, s =>
    if !s.enabled then some s
    else
      let b := s.tls tid
      if b = 0 then some s
      else
        let s1 := stampEnd s b
        if (s1.blocks b).previous ≠ 0 then
          match parentWalk fuel s1.blocks b with
          | none => none
          | some parentIdx =>
            let s2 := { s1 with tls := Function.update s1.tls tid parentIdx }
            if (s2.blocks parentIdx).data.processor ≠ s2.cpu then
              match endBlockF fuel tid s2 with
              | none => none
              | some s3 =>
                let nm := (s3.blocks parentIdx).data.name
                some (beginBlock tid nm (cstrLen nm) s3)
            else some s2
        else
          match putRootBlock fuel s1 b with
          | none => none
          | some s2 => some { s2 with tls := Function.update s2.tls tid 0 }

/-- profile_update_block: when the recorded processor of the current block
differs from the live cpu, end it and begin a fresh block of the same name. -/
def updateBlockF (fuel : Nat) (tid : Nat) (s : PState) : Option PState :=
  if !s.enabled then some s
  else
    let b := s.tls tid
    if b = 0 then some s
    else if (s.blocks b).data.processor = s.cpu then some s
    else
      match endBlockF fuel tid s with
      | none => none
      | some s1 =>
        let nm := (s1.blocks b).data.name
        some (beginBlock tid nm (cstrLen nm) s1)

/-- profile_end_frame: a simple event record with id PROFILE_ID_ENDFRAME = 4
whose endt field carries the user frame counter. -/
def endFrameF (fuel : Nat) (tid : Nat) (counterArg : Int) (s : PState) : Option PState :=
  if !s.enabled then some s
  else
    match allocate s with
    | (none, s1) => some s1
    | (some b, s1) =>
      let d : BlockData :=
        { zeroData with id := 4, processor := s1.cpu, thread := tid,
                        start := s1.nowTick - s1.ground, endt := counterArg }
      let s2 := updB s1 b { s1.blocks b with data := d }
      putSimpleBlock fuel tid b s2

/-- profile_log (event id PROFILE_ID_LOGMESSAGE = 2). -/
def profileLogF (fuel : Nat) (tid : Nat) (msg : List Nat) (len : Nat) (s : PState) :
    Option PState :=
  if !s.enabled then some s else putMessageBlock fuel tid 2 msg len s

/-- profile_trylock (event id 5). -/
def profileTrylockF (fuel : Nat) (tid : Nat) (msg : List Nat) (len : Nat) (s : PState) :
    Option PState :=
  if !s.enabled then some s else putMessageBlock fuel tid 5 msg len s

/-- profile_lock (event id 7). -/
def profileLockF (fuel : Nat) (tid : Nat) (msg : List Nat) (len : Nat) (s : PState) :
    Option PState :=
  if !s.enabled then some s else putMessageBlock fuel tid 7 msg len s

/-- profile_unlock (event id 9). -/
def profileUnlockF (fuel : Nat) (tid : Nat) (msg : List Nat) (len : Nat) (s : PState) :
    Option PState :=
  if !s.enabled then some s else putMessageBlock fuel tid 9 msg len s

/-- profile_wait (event id 11). -/
def profileWaitF (fuel : Nat) (tid : Nat) (msg : List Nat) (len : Nat) (s : PState) :
    Option PState :=
  if !s.enabled then some s else putMessageBlock fuel tid 11 msg len s

/-- profile_signal (event id 12). -/
def profileSignalF (fuel : Nat) (tid : Nat) (msg : List Nat) (len : Nat) (s : PState) :
    Option PState :=
  if !s.enabled then some s else putMessageBlock fuel tid 12 msg len s

/-- The sink write at the head of _profile_process_block: hand the whole
64-byte record to the writer when one is installed. -/
def emitStep (s : PState) (b : Nat) : PState :=
  if s.hasWrite then { s with sink := s.sink ++ [s.blocks b] } else s

/-- _profile_process_block: emit the 64-byte record to the sink, then reparent
child and sibling subtrees so that the whole subtree becomes one chain linked
through the child field; returns the tail of that chain.  Every memory read of
the C source is performed at the corresponding point of execution. -/
def processBlock : Nat → PState → Nat → Option (PState × Nat)
  | 0, _, _ => none
  | fuel + 1, s, b =>
    let s1 := emitStep s b
    let c := (s1.blocks b).child
    if c ≠ 0 then
      match processBlock fuel s1 c with
      | none => none
      | some (s2, leaf) =>
        let sib := (s2.blocks b).sibling
        if sib ≠ 0 then
          match processBlock fuel s2 sib with
          | none => none
          | some (s3, subleaf) =>
            let s4 := updB s3 subleaf { s3.blocks subleaf with child := (s3.blocks b).child }
            let s5 := updB s4 b { s4.blocks b with child := (s4.blocks b).sibling }
            let s6 := updB s5 b { s5.blocks b with sibling := 0 }
            some (s6, leaf)
        else some (s2, leaf)
    else
      let sib := (s1.blocks b).sibling
      if sib ≠ 0 then
        match processBlock fuel s1 sib with
        | none => none
        | some (s2, subleaf) =>
          let s3 := updB s2 b { s2.blocks b with child := (s2.blocks b).sibling }
          let s4 := updB s3 b { s3.blocks b with sibling := 0 }
          some (s4, subleaf)
      else some (s1, b)

/-- The while loop of _profile_process_root_block over the captured list of
root trees (linked through sibling). -/
def processRootLoop : Nat → PState → Nat → Option PState
  | 0, _, _ => none
  | fuel + 1, s, block =>
    if block = 0 then some s
    else
      let next := (s.blocks block).sibling
      let s1 := updB s block { s.blocks block with sibling := 0 }
      match processBlock fuel s1 block with
      | none => none
      | some (s2, leaf) => processRootLoop fuel (freeBlockChain s2 block leaf) next

/-- _profile_process_root_block: atomically capture the whole root list, then
stream and recycle each captured tree. -/
def processRootBlock (fuel : Nat) (s : PState) : Option PState :=
  let block := s.root
  let s1 := if block = 0 then s else { s with root := 0 }
  processRootLoop fuel s1 block

/-- The terminator record: memset to zero, id set to PROFILE_ID_ENDOFSTREAM =
0, hence the all-zero record. -/
def terminatorBlock : PBlock := zeroBlock

/-- Name bytes of the string sysinfo. -/
def sysinfoName : List Nat := [115, 121, 115, 105, 110, 102, 111]

/-- The synthetic system-info record built once by _profile_io: id =
PROFILE_ID_SYSTEMINFO = 1, start carrying ticks-per-second, name sysinfo, all
other fields zero. -/
def sysinfoBlock (tps : Int) : PBlock :=
  let d : BlockData :=
    { zeroData with id := 1, start := tps, name := copyName sysinfoName 7 }
  { zeroBlock with data := d }

/-- Names used by the self-profiling spans of the I/O thread. -/
def nameProfileIo : List Nat := [112, 114, 111, 102, 105, 108, 101, 95, 105, 111]

/-- Name bytes of the string process. -/
def nameProcess : List Nat := [112, 114, 111, 99, 101, 115, 115]

/-- One iteration of the _profile_io loop body (one wakeup of the I/O thread
that did not see the exit semaphore): skip when the root list is empty,
otherwise drain it inside self-profiling profile_io / process spans, and after
the drain emit the system-info record when the iteration counter exceeds 10,
resetting it.  tid is the thread id of the I/O thread, tps the value of
time_ticks_per_second captured at thread start, cnt the local
system_info_counter. -/
def ioIteration (fuel : Nat) (tid : Nat) (tps : Int) (cnt : Nat) (s : PState) :
    Option (Nat × PState) :=
  if s.root = 0 then some (cnt, s)
  else
    let s1 := beginBlock tid nameProfileIo 10 s
    let inner : Option PState :=
      if s1.root ≠ 0 then
        let s2 := beginBlock tid nameProcess 7 s1
        match processRootBlock fuel s2 with
        | none => none
        | some s3 => endBlockF fuel tid s3
      else some s1
    match inner with
    | none => none
    | some s4 =>
      let step : Nat × PState :=
        if cnt > 10 then
          (0, if s4.hasWrite then { s4 with sink := s4.sink ++ [sysinfoBlock tps] } else s4)
        else (cnt + 1, s4)
      match endBlockF fuel tid step.2 with
      | none => none
      | some s5 => some (step.1, s5)

/-- The tail of _profile_io after the exit semaphore fires: one final drain when
the root list is nonempty, then the end-of-stream terminator record. -/
def ioExitTail (fuel : Nat) (s : PState) : Option PState :=
  match (if s.root ≠ 0 then processRootBlock fuel s else some s) with
  | none => none
  | some s1 =>
    some (if s1.hasWrite then { s1 with sink := s1.sink ++ [terminatorBlock] } else s1)

/-- profile_enable(true): set the flag and start the I/O thread (whose loop
iterations are explicit ioIteration steps of a trace). -/
def enableOn (s : PState) : PState :=
  if !s.enabled then { s with enabled := true } else s

/-- profile_enable(false): post the exit semaphore and join the I/O thread,
which runs its exit tail (final drain plus terminator) before the flag is
cleared. -/
def enableOffF (fuel : Nat) (s : PState) : Option PState :=
  if s.enabled then
    match ioExitTail fuel s with
    | none => none
    | some s1 => some { s1 with enabled := false }
  else some s

/-- The cleanup loop of _profile_thread_finalize: repeatedly end the current
block of thread tid, warning each time, and break out when an end leaves the
current block unchanged (self reference). -/
def threadFinalizeLoop : Nat → Nat → Nat → PState → Option PState
  | 0, _, _, _ => none
  | fuel + 1, tid, lastBlock, s =>
    let b := s.tls tid
    if b = 0 then some s
    else if lastBlock = b then some s
    else
      match endBlockF fuel tid s with
      | none => none
      | some s1 => threadFinalizeLoop fuel tid b s1

/-- _profile_thread_finalize for thread tid. -/
def threadFinalizeF (fuel : Nat) (tid : Nat) (s : PState) : Option PState :=
  threadFinalizeLoop fuel tid 0 s

/-- profile_finalize, executed on thread tid: disable (joining the I/O thread),
clean up the calling thread, drain any remaining root trees, run the sanity
checks (pure logging, no state change), and reset the module words. -/
def finalizeF (fuel : Nat) (tid : Nat) (s : PState) : Option PState :=
  match enableOffF fuel s with
  | none => none
  | some s1 =>
    match threadFinalizeF fuel tid s1 with
    | none => none
    | some s2 =>
      match (if s2.root ≠ 0 then processRootBlock fuel s2 else some s2) with
      | none => none
      | some s3 =>
        some { s3 with root := 0, free := { slot := 0, tag := 0 }, numBlocks := 0 }

/-- The pool as threaded by profile_initialize over a buffer whose previous
contents are f: slots 0 .. n-2 get child i+1 and sibling 0, the terminal slot
n-1 gets child 0, and slot 0 (the reserved null slot) finally gets child 0
again; every other byte of the buffer is left as it was. -/
def initBlocks (f : Nat → PBlock) (n : Nat) : Nat → PBlock := fun i =>
  if i = 0 then { f 0 with child := 0, sibling := 0 }
  else if i + 1 < n then { f i with child := i + 1, sibling := 0 }
  else if i + 1 = n then { f i with child := 0, sibling := 0 }
  else f i

/-- The num_blocks computation of profile_initialize: size / 64 records,
capped at 65535. -/
def poolCap (size : Nat) : Nat :=
  if size / 64 > 65535 then 65535 else size / 64

/-- profile_initialize with a buffer of the given size whose previous contents
are f: numBlocks = min(size / 64, 65535) slots, free head = slot 1, counter =
128, ground time = the current tick t0.  hw records whether a sink writer is
installed (profile_set_output), cpu0 the starting processor. -/
def profileSetup (f : Nat → PBlock) (size : Nat) (hw : Bool) (t0 : Int) (cpu0 : Nat) :
    PState :=
  { blocks := initBlocks f (poolCap size)
    free := { slot := 1, tag := 0 }
    loopid := 0
    counter := 128
    root := 0
    tls := fun _ => 0
    sink := []
    hasWrite := hw
    enabled := false
    nowTick := t0
    ground := t0
    cpu := cpu0
    numBlocks := poolCap size
    warned := false
    warnCount := 0 }

/-- Advance the external clock (time_current is monotone). -/
def tickClock (d : Nat) (s : PState) : PState := { s with nowTick := s.nowTick + (d : Int) }

/-- Move the current thread to another processor (external scheduler event). -/
def setCpu (p : Nat) (s : PState) : PState := { s with cpu := p }

/-- Collect slots by following child links, stopping at the null slot; fuel
bounds the walk.  Used both for the free list (whose successor field is child)
and for the flattened stream chains. -/
def childChain : Nat → (Nat → PBlock) → Nat → List Nat
  | 0, _, _ => []
  | fuel + 1, f, b => if b = 0 then [] else b :: childChain fuel f (f b).child

/-- Shape of a subtree of open or completed blocks: a slot together with its
first child subtree and its next sibling subtree (the left-child right-sibling
view used by _profile_process_block). -/
inductive STree where
  | nil : STree
  | mk : Nat → STree → STree → STree
deriving DecidableEq, Repr

/-- Slot stored at the top of a subtree, 0 for the empty tree (matching the
null slot convention of the C code). -/
def STree.headSlot : STree → Nat
  | nil => 0
  | mk b _ _ => b

/-- Number of records in a subtree. -/
def STree.size : STree → Nat
  | nil => 0
  | mk _ c s => 1 + c.size + s.size

/-- Slots of a subtree in the order _profile_process_block emits them to the
sink: the record itself, then its child subtree, then its sibling subtree. -/
def STree.slots : STree → List Nat
  | nil => []
  | mk b c s => b :: (c.slots ++ s.slots)

/-- Slots of a subtree in the order of the flattened child chain built by
_profile_process_block: the record itself, then the sibling subtree, then the
child subtree. -/
def STree.chain : STree → List Nat
  | nil => []
  | mk b c s => b :: (s.chain ++ c.chain)

/-- The slot _profile_process_block returns for a subtree: the leaf of the
child subtree when there is one, else the leaf of the sibling subtree, else
the record itself. -/
def STree.leaf : STree → Nat
  | nil => 0
  | mk b nil nil => b
  | mk _ nil (mk x c s) => (mk x c s).leaf
  | mk _ (mk x c s) _ => (mk x c s).leaf

/-- Whether the pool f realises the subtree shape t: every node is a nonzero
slot whose child and sibling links point at the top slots of the corresponding
subtrees. -/
def STree.agreesB (f : Nat → PBlock) : STree → Bool
  | nil => true
  | mk b c s =>
    b != 0 && (f b).child == c.headSlot && (f b).sibling == s.headSlot &&
      c.agreesB f && s.agreesB f

/-- ChainTo f x l z: starting from slot x and repeatedly following child
links, the walk passes exactly through the (nonzero) slots of l and then
stands at z (the child of the last element of l, or x itself when l is
empty). -/
inductive ChainTo (f : Nat → PBlock) : Nat → List Nat → Nat → Prop
  | refl (x : Nat) : ChainTo f x [] x
  | step (x : Nat) (l : List Nat) (z : Nat) :
      x ≠ 0 → ChainTo f ((f x).child) l z → ChainTo f x (x :: l) z

/-- Shape hypothesis for the backward walk of profile_end_block: from the
current block b, the successive previous links pass through the given list of
elder siblings (those nearer the head of the child list of parent) and end at
the head child, whose previous link is the parent; no intermediate slot is the
first child of its predecessor (under the shape invariants of the open tree
distinct nodes live in distinct slots, so a sibling can never be its
predecessor's first child). -/
def walkPathB (f : Nat → PBlock) (parent : Nat) : Nat → List Nat → Bool
  | b, [] => (f b).previous == parent && (f parent).child == b
  | b, p :: rest =>
    (f b).previous == p && (p != 0) && (f p).child != b && walkPathB f parent p rest

/-- A pool state whose slots h .. n-1 are still threaded exactly as
profile_initialize left them (the untouched suffix of a freshly initialized
pool): the free head is h (or empty when h = n), each suffix slot links to the
next through child, and the suffix sibling fields are zero. -/
def FreshFrom (s : PState) (h n : Nat) : Prop :=
  s.free.slot = (if h < n then h else 0) ∧ 1 ≤ h ∧ h ≤ n ∧
    (∀ j < n, h ≤ j →
      ((j + 1 < n → (s.blocks j).child = j + 1) ∧
       (j + 1 = n → (s.blocks j).child = 0) ∧
       (s.blocks j).sibling = 0))

/-- Payload of the i-th record (0 = master) that _profile_put_message_block
builds for an event with id mid, counter value c0 at entry, processor p,
thread tid, relative start tick sigma, and message msg of length len. -/
def msgData (mid : Int) (c0 : Nat) (p tid : Nat) (sigma : Int) (msg : List Nat)
    (len : Nat) (i : Nat) : BlockData :=
  { id := if i = 0 then mid else mid + 1
    parentid := if i = 0 then 0 else ((c0 + i : Nat) : Int)
    processor := p
    thread := tid
    start := sigma
    endt := ((c0 + i + 1 : Nat) : Int)
    name := copyName (msg.drop (25 * i)) (len - 25 * i) }

/-- Payload written by the top-level branch of profile_begin_block on a
freshly zeroed record: id from the counter, name, processor, thread and
relative start tick; parentid and endt stay zero. -/
def spanData (c : Nat) (p tid : Nat) (sigma : Int) (msg : List Nat) (len : Nat) : BlockData :=
  { zeroData with id := ((c : Nat) : Int), name := copyName msg len, processor := p,
                  thread := tid, start := sigma }

/-- A freshly allocated top-level span record: span payload, all links zero. -/
def spanBlock (c : Nat) (p tid : Nat) (sigma : Int) (msg : List Nat) (len : Nat) : PBlock :=
  { zeroBlock with data := spanData c p tid sigma msg len }

/-- A top-level span record at the moment profile_end_block has stamped its
end tick tau: span payload with endt set, all links zero. -/
def endedSpanBlock (c : Nat) (p tid : Nat) (sigma tau : Int) (msg : List Nat)
    (len : Nat) : PBlock :=
  { zeroBlock with data := { spanData c p tid sigma msg len with endt := tau } }

/-- A pool buffer whose previous contents are all zero. -/
def zeroPool : Nat → PBlock := fun _ => zeroBlock

/-- Trace for the pool-exhaustion leak: a pool of 3 slots (192 bytes), enabled,
then profile_log of a 60-byte message on thread 7.  The master and the first
continuation take the two free slots; the second continuation allocation fails
and the C code returns, abandoning the built chain. -/
def leakTrace : Option PState :=
  profileLogF 70 7 (List.replicate 60 65) 60 (enableOn (profileSetup zeroPool 192 true 0 0))

/-- A record with a given id and given links, zero elsewhere. -/
def mkCexBlock (i : Int) (prev sib chd : Nat) : PBlock :=
  { data := { zeroData with id := i }, previous := prev, sibling := sib, child := chd }

/-- State for the stream-walk order counterexample: slot 1 (id 100) has first
child slot 2 (id 200) and sibling slot 3 (id 300); writer installed. -/
def walkCexState : PState :=
  { blocks :=
      Function.update
        (Function.update (Function.update zeroPool 1 (mkCexBlock 100 0 3 2))
          2 (mkCexBlock 200 1 0 0))
        3 (mkCexBlock 300 1 0 0)
    free := { slot := 0, tag := 0 }
    loopid := 0
    counter := 128
    root := 0
    tls := fun _ => 0
    sink := []
    hasWrite := true
    enabled := true
    nowTick := 0
    ground := 0
    cpu := 0
    numBlocks := 4
    warned := false
    warnCount := 0 }

/-- The subtree shape of walkCexState rooted at slot 1. -/
def walkCexTree : STree :=
  STree.mk 1 (STree.mk 2 STree.nil STree.nil) (STree.mk 3 STree.nil STree.nil)

/-- Trace for the oversized-message record count: fresh pool of 8 slots,
enabled, profile_log of a 52-byte message on thread 7, then one drain. -/
def oversizeTrace : Option PState :=
  match profileLogF 60 7 (List.replicate 52 65) 52 (enableOn (profileSetup zeroPool 512 true 0 0)) with
  | none => none
  | some s1 => processRootBlock 10 s1

/-- Trace for the span round trip at a 26-byte name: fresh pool of 4 slots,
begin a span named with 26 bytes 65 on thread 7, advance the clock by 5 ticks,
end the span, drain. -/
def roundTripTrace : Option PState :=
  let s1 := beginBlock 7 (List.replicate 26 65) 26 (enableOn (profileSetup zeroPool 256 true 10 3))
  match endBlockF 3 7 (tickClock 5 s1) with
  | none => none
  | some s3 => processRootBlock 6 s3

/-- Base state for the system-info iteration counterexample: fresh pool of 8
slots, enabled, one end-of-frame event published to the root list (so the
iteration under scrutiny sees a nonempty root list and runs its full body). -/
def ioCexBase : Option PState :=
  endFrameF 10 7 5 (enableOn (profileSetup zeroPool 512 true 0 0))

/-- Input state for the parent-walk witness: parent slot 1 with child list
headed by slot 3 followed by slot 2 (so 1.child = 3, 3.previous = 1,
2.previous = 3), thread 9 currently inside slot 2, all processors 0. -/
def walkWitnessState : PState :=
  { blocks :=
      Function.update
        (Function.update (Function.update zeroPool 1 (mkCexBlock 500 0 0 3))
          3 (mkCexBlock 502 1 2 0))
        2 (mkCexBlock 501 3 0 0)
    free := { slot := 0, tag := 0 }
    loopid := 0
    counter := 128
    root := 0
    tls := Function.update (fun _ => 0) 9 2
    sink := []
    hasWrite := true
    enabled := true
    nowTick := 4
    ground := 0
    cpu := 0
    numBlocks := 4
    warned := false
    warnCount := 0 }

/-- Concrete input for the system-info witness: a pool of 8 slots where slot 1
holds a finished end-of-frame record already published as the only root tree
and slots 2..7 form the free list. -/
def ioWitnessState : PState :=
  { blocks :=
      Function.update (initBlocks zeroPool 8) 1
        { zeroBlock with
            data := { zeroData with id := 4, processor := 0, thread := 7, start := 1, endt := 5 } }
    free := { slot := 2, tag := 0 }
    loopid := 0
    counter := 128
    root := 1
    tls := fun _ => 0
    sink := []
    hasWrite := true
    enabled := true
    nowTick := 6
    ground := 0
    cpu := 0
    numBlocks := 8
    warned := false
    warnCount := 0 }

/-- The pure child chain of k slots b, b+1, ..., b+k-1 as a subtree shape (the
shape _profile_put_message_block builds for an oversized message allocated
from a fresh pool). -/
def lineTree : Nat → Nat → STree
  | _, 0 => STree.nil
  | b, k + 1 => STree.mk b (lineTree (b + 1) k) STree.nil

/-- Records handed to the sink when the writer is installed: the listed slots
are written in order, each as its full 64-byte record. -/
def emitList (hw : Bool) (f : Nat → PBlock) (l : List Nat) : List PBlock :=
  if hw then l.map f else []

/-- Two states that agree on everything except the pool contents and the sink
(the footprint of the stream walk). -/
def sameCore (a b : PState) : Prop :=
  a.free = b.free ∧ a.loopid = b.loopid ∧ a.counter = b.counter ∧ a.root = b.root ∧
    a.tls = b.tls ∧ a.hasWrite = b.hasWrite ∧ a.enabled = b.enabled ∧
    a.nowTick = b.nowTick ∧ a.ground = b.ground ∧ a.cpu = b.cpu ∧
    a.numBlocks = b.numBlocks ∧ a.warned = b.warned ∧ a.warnCount = b.warnCount

/-- Claim C1 (conservation of slots) fails on the code: after the producer
sequence initialize(3 slots); enable; profile_log(60-byte message) the system
is quiescent (root list empty, thread 7 holds no open block, nothing in
flight), yet the free list is empty instead of holding the claimed N - 1 = 2
slots: the master and continuation record of the aborted oversized message
were abandoned outside every list when the second continuation allocation hit
pool exhaustion. -/
theorem claim_C1_slot_conservation_violated :
    leakTrace.map
        (fun s => (s.root, s.tls 7, childChain 4 s.blocks s.free.slot, s.numBlocks,
          s.warnCount)) =
      some (0, 0, [], 3, 1) ∧ (0 : Nat) ≠ 3 - 1 := by
  decide

/-- Claim C2 (no partial construction on exhaustion) fails on the code: in the
same trace the master record of the oversized message (slot 1, id
PROFILE_ID_LOGMESSAGE = 2, chained to continuation slot 2) was allocated and
filled, the continuation allocation then returned null, and the C code
returned without publishing the chain and without returning it to the free
list: slot 1 is outside the free list (which is empty), outside the root list
(0) and not an open block (thread-local 0), exactly one exhaustion warning was
emitted. -/
theorem claim_C2_exhaustion_leak :
    leakTrace.map (fun s => (s.free.slot, s.root, s.tls 7, s.warnCount)) =
        some (0, 0, 0, 1) ∧
      leakTrace.map
          (fun s => ((s.blocks 1).data.id, (s.blocks 1).child, (s.blocks 2).data.id)) =
        some (2, 2, 3) := by
  exact ⟨by decide, by decide⟩

/-- Claim C3, counterexample to the emission-order conjunct: on the subtree
with root slot 1 (id 100), first child slot 2 (id 200) and sibling slot 3 (id
300), _profile_process_block emits ids in the order 100, 200, 300 (node,
child subtree, sibling subtree) but flattens the records into the child chain
1, 3, 2 whose id order is 100, 300, 200: the emission order differs from the
order of the resulting child-linked chain. -/
theorem claim_C3_counterexample :
    (processBlock 5 walkCexState 1).map
        (fun p => (p.2, p.1.sink.map (fun r => r.data.id), childChain 3 p.1.blocks 1,
          (childChain 3 p.1.blocks 1).map (fun i => (p.1.blocks i).data.id))) =
      some (2, [100, 200, 300], [1, 3, 2], [100, 300, 200]) ∧
    ([100, 200, 300] : List Int) ≠ [100, 300, 200] := by
  decide

/-- Claim C4, counterexample to the record count: profile_log of a 52-byte
message (with enough free slots) produces and drains 3 records with ids 2, 3,
3, while the claim predicts ceil(52 / 26) = 2 records; the code chunks the
message with stride MAX_MESSAGE_LENGTH = 25, not 26. -/
theorem claim_C4_counterexample :
    oversizeTrace.map (fun s => (s.sink.length, s.sink.map (fun r => r.data.id))) =
      some (3, [2, 3, 3]) ∧ (52 + 25) / 26 = 2 ∧ (3 : Nat) ≠ 2 := by
  decide

/-- Claim C5, counterexample to the 26-byte name conjunct: a span begun with a
26-byte name of bytes 65 rounds through end and drain into a record whose
name field holds only the first 25 bytes followed by a NUL, so the first 26
bytes of the emitted name differ from the first 26 bytes of the input
(string_copy keeps one byte of the 26-byte field for the terminator). -/
theorem claim_C5_counterexample :
    roundTripTrace.map (fun s => s.sink.map (fun r => r.data.name.take 26)) =
      some [List.replicate 25 65 ++ [0]] ∧
    (List.replicate 25 65 ++ [0] : List Nat) ≠ List.replicate 26 65 := by
  decide

/-- Claim C8, counterexample: from a state whose root list is nonempty (one
end-of-frame tree, root head 1) with the iteration counter at 10, the 11th
iteration of the I/O loop emits no system-info record (the sink it produces
contains no record with id 1) and leaves the counter at 11 instead of
restarting it; the code only emits on the iteration that sees counter > 10,
which is the 12th. -/
theorem claim_C8_counterexample :
    ioCexBase.map (fun s => s.root) = some 1 ∧
    (ioCexBase.bind (ioIteration 30 9 777 10)).map
        (fun p => (p.1, (p.2.sink.filter (fun r => r.data.id == 1)).length)) =
      some (11, 0) ∧ (11 : Nat) ≠ 10 + 1 - 11 ∧ (0 : Nat) ≠ 1 := by
  decide

theorem childChain_zero (fuel : Nat) (f : Nat → PBlock) : childChain fuel f 0 = [] := by
  cases fuel <;> simp [childChain]

theorem init_childChain (g : Nat → PBlock) (n : Nat) :
    ∀ m h k, 1 ≤ m → 1 ≤ h → h + m = n →
      childChain (m + k) (initBlocks g n) h = List.range' h m := by
  intro m
  induction m with
  | zero => intro h k hm hh hn; omega
  | succ m ih =>
    intro h k hm hh hn
    have hrw : m + 1 + k = (m + k) + 1 := by omega
    rw [hrw]
    have hb : ¬ h = 0 := by omega
    show (if h = 0 then [] else h :: childChain (m + k) (initBlocks g n) ((initBlocks g n h).child))
      = List.range' h (m + 1)
    rw [if_neg hb]
    cases m with
    | zero =>
      have hc : (initBlocks g n h).child = 0 := by
        unfold initBlocks
        rw [if_neg hb, if_neg (by omega), if_pos (by omega)]
      rw [hc, childChain_zero]
      simp [List.range']
    | succ m2 =>
      have hc : (initBlocks g n h).child = h + 1 := by
        unfold initBlocks
        rw [if_neg hb, if_pos (by omega)]
      rw [hc, ih (h + 1) k (by omega) (by omega) (by omega)]
      simp [List.range'_succ]

theorem initBlocks_sibling (g : Nat → PBlock) (n i : Nat) (h2 : i < n) :
    (initBlocks g n i).sibling = 0 := by
  unfold initBlocks
  by_cases h0 : i = 0
  · rw [if_pos h0]
  · rw [if_neg h0]
    by_cases hlt : i + 1 < n
    · rw [if_pos hlt]
    · rw [if_neg hlt, if_pos (by omega)]

theorem poolCap_eq_min (size : Nat) : poolCap size = min (size / 64) 65535 := by
  unfold poolCap
  split <;> omega

theorem allocate_never_zero (t : PState) (b : Nat) (h : (allocate t).1 = some b) : b ≠ 0 := by
  unfold allocate at h
  by_cases h0 : t.free.slot = 0
  · rw [if_pos h0] at h; cases h
  · rw [if_neg h0] at h
    simp at h
    omega

/-- Claim C9: profile_initialize over a buffer of the given size builds a pool
of N = min(size / 64, 65535) slots whose free head is slot 1, whose child
links from slot 1 pass exactly through slots 1 .. N-1 in order with the
terminal child equal to 0, whose free slots all carry sibling 0, and whose
reserved slot 0 is never handed out by the allocator (which returns null on a
zero head rather than slot 0); the pool size is recorded in numBlocks. -/
theorem claim_C9_setup (g : Nat → PBlock) (size : Nat) (hw : Bool) (t0 : Int) (cpu0 : Nat)
    (h2 : 2 ≤ min (size / 64) 65535) :
    (profileSetup g size hw t0 cpu0).numBlocks = min (size / 64) 65535 ∧
    (profileSetup g size hw t0 cpu0).free.slot = 1 ∧
    childChain (min (size / 64) 65535) (profileSetup g size hw t0 cpu0).blocks 1 =
      List.range' 1 (min (size / 64) 65535 - 1) ∧
    ((profileSetup g size hw t0 cpu0).blocks (min (size / 64) 65535 - 1)).child = 0 ∧
    (∀ i, 1 ≤ i → i < min (size / 64) 65535 →
      ((profileSetup g size hw t0 cpu0).blocks i).sibling = 0) ∧
    (∀ t b, (allocate t).1 = some b → b ≠ 0) := by
  set n := min (size / 64) 65535 with hn
  have hblocks : (profileSetup g size hw t0 cpu0).blocks = initBlocks g n := by
    show initBlocks g (poolCap size) = initBlocks g n
    rw [poolCap_eq_min size]
  refine ⟨by rw [show (profileSetup g size hw t0 cpu0).numBlocks = poolCap size from rfl,
    poolCap_eq_min size], rfl, ?_, ?_, ?_, ?_⟩
  · rw [hblocks]
    have : n = (n - 1) + 1 := by omega
    rw [this]
    exact init_childChain g ((n - 1) + 1) (n - 1) 1 1 (by omega) (by omega) (by omega)
  · rw [hblocks]
    unfold initBlocks
    rw [if_neg (by omega), if_neg (by omega), if_pos (by omega)]
  · intro i h1 hi
    rw [hblocks]
    exact initBlocks_sibling g n i hi
  · exact allocate_never_zero

/-- Witness for claim C9 at the literal scenario of the spec: a 64 * 1024 byte
buffer yields 1024 slots, free head 1, the free chain 1 .. 1023 of length
1023, terminal child 0. -/
theorem claim_C9_witness :
    (profileSetup zeroPool 65536 true 0 0).numBlocks = 1024 ∧
    (profileSetup zeroPool 65536 true 0 0).free.slot = 1 ∧
    childChain 1024 (profileSetup zeroPool 65536 true 0 0).blocks 1 = List.range' 1 1023 ∧
    (childChain 1024 (profileSetup zeroPool 65536 true 0 0).blocks 1).length = 1023 ∧
    ((profileSetup zeroPool 65536 true 0 0).blocks 1023).child = 0 := by
  have h := claim_C9_setup zeroPool 65536 true 0 0 (by decide)
  have hmin : min (65536 / 64) 65535 = 1024 := by decide
  rw [hmin] at h
  refine ⟨h.1, h.2.1, h.2.2.1, ?_, h.2.2.2.1⟩
  rw [h.2.2.1]
  simp

theorem update_keep_previous (f : Nat → PBlock) (i : Nat) (d : BlockData) (x : Nat) :
    (Function.update f i { f i with data := d } x).previous = (f x).previous := by
  by_cases h : x = i
  · subst h; rw [Function.update_same]
  · rw [Function.update_noteq h]

theorem update_keep_child (f : Nat → PBlock) (i : Nat) (d : BlockData) (x : Nat) :
    (Function.update f i { f i with data := d } x).child = (f x).child := by
  by_cases h : x = i
  · subst h; rw [Function.update_same]
  · rw [Function.update_noteq h]

theorem walkPathB_congr (f g : Nat → PBlock) (parent : Nat)
    (hprev : ∀ x, (g x).previous = (f x).previous)
    (hchild : ∀ x, (g x).child = (f x).child) :
    ∀ (up : List Nat) (b : Nat), walkPathB g parent b up = walkPathB f parent b up := by
  intro up
  induction up with
  | nil => intro b; simp [walkPathB, hprev, hchild]
  | cons p rest ih => intro b; simp [walkPathB, hprev, hchild, ih]

theorem walkPath_parentWalk (up : List Nat) :
    ∀ (f : Nat → PBlock) (parent b : Nat), walkPathB f parent b up = true →
      parentWalk (up.length + 1) f b = some parent := by
  induction up with
  | nil =>
    intro f parent b h
    simp only [walkPathB, Bool.and_eq_true, beq_iff_eq] at h
    simp only [List.length_nil, parentWalk, h.1]
    rw [if_pos h.2]
  | cons p rest ih =>
    intro f parent b h
    simp only [walkPathB, Bool.and_eq_true, beq_iff_eq, bne_iff_ne, ne_eq] at h
    obtain ⟨⟨⟨h1, _⟩, h3⟩, h4⟩ := h
    show parentWalk (rest.length + 1 + 1) f b = some parent
    simp only [parentWalk, h1]
    rw [if_neg h3]
    exact ih f parent p h4

theorem stampEnd_previous (s : PState) (b x : Nat) :
    ((stampEnd s b).blocks x).previous = (s.blocks x).previous := by
  unfold stampEnd updB
  exact update_keep_previous s.blocks b _ x

theorem stampEnd_child (s : PState) (b x : Nat) :
    ((stampEnd s b).blocks x).child = (s.blocks x).child := by
  unfold stampEnd updB
  exact update_keep_child s.blocks b _ x

theorem update_keep_processor (f : Nat → PBlock) (i : Nat) (e : Int) (x : Nat) :
    (Function.update f i { f i with data := { (f i).data with endt := e } } x).data.processor =
      (f x).data.processor := by
  by_cases h : x = i
  · subst h; rw [Function.update_same]
  · rw [Function.update_noteq h]

theorem stampEnd_processor (s : PState) (b x : Nat) :
    ((stampEnd s b).blocks x).data.processor = (s.blocks x).data.processor := by
  unfold stampEnd updB
  exact update_keep_processor s.blocks b _ x

/-- Claim C6: in profile_end_block on a block with nonzero previous link,
under the shape invariants of the open tree (expressed by walkPathB: the
previous links from the current block pass through its elder siblings, those
nearer the head of the child list of the parent, and end at the head child
whose previous link is the parent; no intermediate slot lists the next one as
its first child, which the shape invariants force since a node's first child
and its next sibling are distinct nodes in distinct slots), the backward walk
terminates within fuel equal to the number of elder siblings plus one and
returns the true parent, and profile_end_block (absent a processor migration)
leaves the thread-local current block index of tid equal to the parent
slot. -/
theorem claim_C6_parent_walk (s : PState) (tid b parent : Nat) (up : List Nat)
    (hen : s.enabled = true) (htls : s.tls tid = b) (hb : b ≠ 0) (hpar : parent ≠ 0)
    (hpath : walkPathB s.blocks parent b up = true)
    (hproc : (s.blocks parent).data.processor = s.cpu) :
    parentWalk (up.length + 1) s.blocks b = some parent ∧
    ∃ s2, endBlockF (up.length + 2) tid s = some s2 ∧ s2.tls tid = parent := by
  have hwalk := walkPath_parentWalk up s.blocks parent b hpath
  refine ⟨hwalk, ?_⟩
  have hprevne : (s.blocks b).previous ≠ 0 := by
    cases up with
    | nil =>
      simp only [walkPathB, Bool.and_eq_true, beq_iff_eq] at hpath
      rw [hpath.1]; exact hpar
    | cons p rest =>
      simp only [walkPathB, Bool.and_eq_true, beq_iff_eq, bne_iff_ne, ne_eq] at hpath
      rw [hpath.1.1.1]; exact hpath.1.1.2
  have hpne : ((stampEnd s b).blocks b).previous ≠ 0 := by
    rw [stampEnd_previous]; exact hprevne
  have hw1 : parentWalk (up.length + 1) (stampEnd s b).blocks b = some parent := by
    apply walkPath_parentWalk
    rw [walkPathB_congr s.blocks (stampEnd s b).blocks parent (stampEnd_previous s b)
      (stampEnd_child s b) up b]
    exact hpath
  have hpr : ¬ (((stampEnd s b).blocks parent).data.processor ≠ (stampEnd s b).cpu) := by
    rw [stampEnd_processor]
    show ¬ ((s.blocks parent).data.processor ≠ s.cpu)
    rw [hproc]
    exact fun h => h rfl
  show ∃ s2, endBlockF (up.length + 1 + 1) tid s = some s2 ∧ s2.tls tid = parent
  simp only [endBlockF, hen, htls, Bool.not_true, Bool.false_eq_true, if_false, if_neg hb]
  rw [if_pos hpne]
  simp only [hw1]
  rw [if_neg hpr]
  refine ⟨_, rfl, ?_⟩
  show Function.update (stampEnd s b).tls tid parent tid = parent
  rw [Function.update_same]

/-- Witness for claim C6: thread 9 is inside slot 2 whose previous sibling is
slot 3 (the head child of parent slot 1); the walk crosses one elder sibling
and profile_end_block moves the thread-local index to slot 1. -/
theorem claim_C6_witness :
    parentWalk 2 walkWitnessState.blocks 2 = some 1 ∧
    ∃ s2, endBlockF 3 9 walkWitnessState = some s2 ∧ s2.tls 9 = 1 :=
  claim_C6_parent_walk walkWitnessState 9 2 1 [3] (by decide) (by decide) (by decide)
    (by decide) (by decide) (by decide)

theorem beginBlock_disabled (tid : Nat) (msg : List Nat) (len : Nat) (s : PState)
    (h : s.enabled = false) : beginBlock tid msg len s = s := by
  simp [beginBlock, h]

theorem endBlockF_disabled (fuel tid : Nat) (s : PState) (h : s.enabled = false) :
    endBlockF (fuel + 1) tid s = some s := by
  simp [endBlockF, h]

theorem profileLogF_disabled (fuel tid : Nat) (msg : List Nat) (len : Nat) (s : PState)
    (h : s.enabled = false) : profileLogF fuel tid msg len s = some s := by
  simp [profileLogF, h]

theorem endFrameF_disabled (fuel tid : Nat) (c : Int) (s : PState)
    (h : s.enabled = false) : endFrameF fuel tid c s = some s := by
  simp [endFrameF, h]

theorem updateBlockF_disabled (fuel tid : Nat) (s : PState) (h : s.enabled = false) :
    updateBlockF fuel tid s = some s := by
  simp [updateBlockF, h]

theorem profileTrylockF_disabled (fuel tid : Nat) (msg : List Nat) (len : Nat) (s : PState)
    (h : s.enabled = false) : profileTrylockF fuel tid msg len s = some s := by
  simp [profileTrylockF, h]

theorem profileLockF_disabled (fuel tid : Nat) (msg : List Nat) (len : Nat) (s : PState)
    (h : s.enabled = false) : profileLockF fuel tid msg len s = some s := by
  simp [profileLockF, h]

theorem profileUnlockF_disabled (fuel tid : Nat) (msg : List Nat) (len : Nat) (s : PState)
    (h : s.enabled = false) : profileUnlockF fuel tid msg len s = some s := by
  simp [profileUnlockF, h]

theorem profileWaitF_disabled (fuel tid : Nat) (msg : List Nat) (len : Nat) (s : PState)
    (h : s.enabled = false) : profileWaitF fuel tid msg len s = some s := by
  simp [profileWaitF, h]

theorem profileSignalF_disabled (fuel tid : Nat) (msg : List Nat) (len : Nat) (s : PState)
    (h : s.enabled = false) : profileSignalF fuel tid msg len s = some s := by
  simp [profileSignalF, h]

theorem allocate_snd_sink (s : PState) :
    (allocate s).2.sink = s.sink ∧ (allocate s).2.hasWrite = s.hasWrite := by
  dsimp only [allocate]
  split <;> exact ⟨rfl, rfl⟩

theorem beginBlock_sink (tid : Nat) (msg : List Nat) (len : Nat) (s : PState) :
    (beginBlock tid msg len s).sink = s.sink ∧
      (beginBlock tid msg len s).hasWrite = s.hasWrite := by
  rcases hal : allocate s with ⟨ob, s1⟩
  have h1 : s1.sink = s.sink ∧ s1.hasWrite = s.hasWrite := by
    have h := allocate_snd_sink s
    rw [hal] at h
    exact h
  dsimp only [beginBlock]
  rw [hal]
  cases ob <;> dsimp only <;> repeat' split
  all_goals first
    | exact ⟨rfl, rfl⟩
    | exact ⟨h1.1, h1.2⟩

theorem putRootBlock_sink (fuel : Nat) (s : PState) (b : Nat) (s1 : PState)
    (h : putRootBlock fuel s b = some s1) :
    s1.sink = s.sink ∧ s1.hasWrite = s.hasWrite := by
  dsimp only [putRootBlock] at h
  split at h
  · cases h; exact ⟨rfl, rfl⟩
  · split at h
    · cases h
    · split at h
      · split at h
        · cases h
        · cases h; exact ⟨rfl, rfl⟩
      · cases h; exact ⟨rfl, rfl⟩

theorem endBlockF_sink (fuel : Nat) :
    ∀ (tid : Nat) (s s1 : PState), endBlockF fuel tid s = some s1 →
      s1.sink = s.sink ∧ s1.hasWrite = s.hasWrite := by
  induction fuel with
  | zero => intro tid s s1 h; cases h
  | succ k ih =>
    intro tid s s1 h
    dsimp only [endBlockF] at h
    split at h
    · cases h; exact ⟨rfl, rfl⟩
    · split at h
      · cases h; exact ⟨rfl, rfl⟩
      · split at h
        · split at h
          · cases h
          · split at h
            · split at h
              · cases h
              · rename_i s3 hs3
                cases h
                have h3 := ih tid _ _ hs3
                constructor
                · rw [(beginBlock_sink _ _ _ _).1, h3.1]; rfl
                · rw [(beginBlock_sink _ _ _ _).2, h3.2]; rfl
            · cases h; exact ⟨rfl, rfl⟩
        · split at h
          · cases h
          · rename_i s2 hs2
            cases h
            have h2 := putRootBlock_sink k _ _ _ hs2
            exact ⟨h2.1, h2.2⟩

theorem emitStep_hasWrite (s : PState) (b : Nat) : (emitStep s b).hasWrite = s.hasWrite := by
  dsimp only [emitStep]
  split <;> rfl

theorem processBlock_hasWrite (fuel : Nat) :
    ∀ (s : PState) (b : Nat) (s1 : PState) (leaf : Nat),
      processBlock fuel s b = some (s1, leaf) → s1.hasWrite = s.hasWrite := by
  induction fuel with
  | zero => intro s b s1 leaf h; cases h
  | succ k ih =>
    intro s b s1 leaf h
    dsimp only [processBlock] at h
    by_cases hc : ((emitStep s b).blocks b).child ≠ 0
    · rw [if_pos hc] at h
      rcases hrec : processBlock k (emitStep s b) ((emitStep s b).blocks b).child with _ | ⟨p2, leaf2⟩
      · rw [hrec] at h; cases h
      · rw [hrec] at h
        dsimp only at h
        by_cases hs : (p2.blocks b).sibling ≠ 0
        · rw [if_pos hs] at h
          rcases hrec2 : processBlock k p2 (p2.blocks b).sibling with _ | ⟨p3, leaf3⟩
          · rw [hrec2] at h; cases h
          · rw [hrec2] at h
            dsimp only at h
            cases h
            show p3.hasWrite = s.hasWrite
            rw [ih _ _ _ _ hrec2, ih _ _ _ _ hrec, emitStep_hasWrite]
        · rw [if_neg hs] at h
          cases h
          rw [ih _ _ _ _ hrec, emitStep_hasWrite]
    · rw [if_neg hc] at h
      by_cases hs : ((emitStep s b).blocks b).sibling ≠ 0
      · rw [if_pos hs] at h
        rcases hrec : processBlock k (emitStep s b) ((emitStep s b).blocks b).sibling with _ | ⟨p2, leaf2⟩
        · rw [hrec] at h; cases h
        · rw [hrec] at h
          dsimp only at h
          cases h
          show p2.hasWrite = s.hasWrite
          rw [ih _ _ _ _ hrec, emitStep_hasWrite]
      · rw [if_neg hs] at h
        cases h
        exact emitStep_hasWrite s b

theorem processRootLoop_hasWrite (fuel : Nat) :
    ∀ (s : PState) (b : Nat) (s1 : PState),
      processRootLoop fuel s b = some s1 → s1.hasWrite = s.hasWrite := by
  induction fuel with
  | zero => intro s b s1 h; cases h
  | succ k ih =>
    intro s b s1 h
    dsimp only [processRootLoop] at h
    split at h
    · cases h; rfl
    · split at h
      · cases h
      · rename_i p2 hp2
        have h2 := processBlock_hasWrite k _ _ _ _ hp2
        have h3 := ih _ _ _ h
        rw [h3]
        exact h2

theorem processRootBlock_hasWrite (fuel : Nat) (s : PState) (s1 : PState)
    (h : processRootBlock fuel s = some s1) : s1.hasWrite = s.hasWrite := by
  dsimp only [processRootBlock] at h
  split at h
  · exact processRootLoop_hasWrite fuel _ _ _ h
  · have h2 := processRootLoop_hasWrite fuel _ _ _ h
    rw [h2]

/-- Claim C8, amended: an iteration of the I/O loop that observes an empty
root list returns immediately, leaving the counter and the whole state
unchanged; an iteration that observes a nonempty root list runs the drain and
then, exactly when the iteration counter exceeds 10 (that is, on the 12th such
iteration since the last reset), appends the synthetic system-info record (id
1, start = ticks-per-second, name sysinfo, all else zero) as its last sink
write and restarts the counter at 0, otherwise incrementing the counter. -/
theorem claim_C8_sysinfo (fuel tid : Nat) (tps : Int) (cnt : Nat) (s : PState)
    (cnt2 : Nat) (s2 : PState) (h : ioIteration fuel tid tps cnt s = some (cnt2, s2)) :
    (s.root = 0 → cnt2 = cnt ∧ s2 = s) ∧
    (s.root ≠ 0 → cnt2 = (if 10 < cnt then 0 else cnt + 1) ∧
      (10 < cnt → s.hasWrite = true → s2.sink.getLast? = some (sysinfoBlock tps))) := by
  by_cases hr : s.root = 0
  · dsimp only [ioIteration] at h
    rw [if_pos hr] at h
    cases h
    exact ⟨fun _ => ⟨rfl, rfl⟩, fun hne => absurd hr hne⟩
  · dsimp only [ioIteration] at h
    rw [if_neg hr] at h
    refine ⟨fun h0 => absurd h0 hr, fun _ => ?_⟩
    have main : ∀ s4 : PState, s4.hasWrite = s.hasWrite →
        (match endBlockF fuel tid
            (if 10 < cnt then
              (0, if s4.hasWrite then { s4 with sink := s4.sink ++ [sysinfoBlock tps] } else s4)
            else (cnt + 1, s4)).2 with
          | none => none
          | some s5 => some ((if 10 < cnt then
              (0, if s4.hasWrite then { s4 with sink := s4.sink ++ [sysinfoBlock tps] } else s4)
            else (cnt + 1, s4)).1, s5)) = some (cnt2, s2) →
        cnt2 = (if 10 < cnt then 0 else cnt + 1) ∧
          (10 < cnt → s.hasWrite = true → s2.sink.getLast? = some (sysinfoBlock tps)) := by
      intro s4 hw4 htail
      by_cases hcnt : 10 < cnt
      · rw [if_pos hcnt] at htail ⊢
        by_cases hwr : s4.hasWrite = true
        · rw [if_pos hwr] at htail
          dsimp only at htail
          rcases hend : endBlockF fuel tid
              { s4 with sink := s4.sink ++ [sysinfoBlock tps] } with _ | s5
          · rw [hend] at htail; cases htail
          · rw [hend] at htail
            dsimp only at htail
            cases htail
            refine ⟨rfl, fun _ _ => ?_⟩
            have hs := endBlockF_sink fuel tid _ _ hend
            rw [hs.1]
            show (s4.sink ++ [sysinfoBlock tps]).getLast? = some (sysinfoBlock tps)
            simp
        · refine ⟨?_, fun _ hww => absurd (hw4.trans hww) hwr⟩
          rw [if_neg hwr] at htail
          dsimp only at htail
          rcases hend : endBlockF fuel tid s4 with _ | s5
          · rw [hend] at htail; cases htail
          · rw [hend] at htail
            dsimp only at htail
            cases htail
            rfl
      · rw [if_neg hcnt] at htail ⊢
        dsimp only at htail
        rcases hend : endBlockF fuel tid s4 with _ | s5
        · rw [hend] at htail; cases htail
        · rw [hend] at htail
          dsimp only at htail
          cases htail
          exact ⟨rfl, fun hlt _ => absurd hlt hcnt⟩
    by_cases hro : (beginBlock tid nameProfileIo 10 s).root ≠ 0
    · rw [if_pos hro] at h
      rcases hpr : processRootBlock fuel
          (beginBlock tid nameProcess 7 (beginBlock tid nameProfileIo 10 s)) with _ | s3
      · rw [hpr] at h; cases h
      · rw [hpr] at h
        dsimp only at h
        rcases hend3 : endBlockF fuel tid s3 with _ | s4
        · rw [hend3] at h; cases h
        · rw [hend3] at h
          dsimp only at h
          refine main s4 ?_ h
          rw [(endBlockF_sink fuel tid _ _ hend3).2,
            processRootBlock_hasWrite fuel _ _ hpr,
            (beginBlock_sink tid nameProcess 7 _).2,
            (beginBlock_sink tid nameProfileIo 10 s).2]
    · rw [if_neg hro] at h
      dsimp only at h
      exact main _ (beginBlock_sink tid nameProfileIo 10 s).2 h

/-- Witness for claim C8: from a concrete state holding one completed
end-of-frame tree on the root list, the iteration that sees counter 11 (the
12th working iteration) resets the counter to 0 and leaves the system-info
record as the last record written to the sink. -/
theorem claim_C8_witness :
    ∃ p : Nat × PState, ioIteration 30 9 777 11 ioWitnessState = some p ∧
      (ioWitnessState.root ≠ 0 →
        p.1 = (if 10 < 11 then 0 else 11 + 1) ∧
        (10 < 11 → ioWitnessState.hasWrite = true →
          p.2.sink.getLast? = some (sysinfoBlock 777))) := by
  rcases hrun : ioIteration 30 9 777 11 ioWitnessState with _ | ⟨cnt2, s2⟩
  · have hsome : (ioIteration 30 9 777 11 ioWitnessState).isSome = true := by decide
    rw [hrun] at hsome
    cases hsome
  · exact ⟨(cnt2, s2), rfl,
      fun hne => (claim_C8_sysinfo 30 9 777 11 ioWitnessState cnt2 s2 hrun).2 hne⟩

theorem beginBlock_top (s : PState) (tid : Nat) (msg : List Nat) (len : Nat)
    (hen : s.enabled = true) (htls : s.tls tid = 0) (hfree : s.free.slot ≠ 0) :
    beginBlock tid msg len s =
      { s with loopid := s.loopid + 1,
               free := { slot := (s.blocks s.free.slot).child, tag := (s.loopid + 1) % 65536 },
               counter := s.counter + 1,
               blocks := Function.update s.blocks s.free.slot
                 (spanBlock (s.counter + 1) s.cpu tid (s.nowTick - s.ground) msg len),
               tls := Function.update s.tls tid s.free.slot } := by
  simp only [beginBlock, allocate, hen, htls, Bool.not_true, Bool.false_eq_true, if_false,
    eq_self_iff_true, if_true]
  rw [if_neg hfree]
  dsimp only
  simp [updB, spanBlock, spanData, zeroBlock, zeroData, Function.update_idem,
    Function.update_same]

theorem stampEnd_root (s : PState) (b : Nat) : (stampEnd s b).root = s.root := rfl

theorem stampEnd_tls (s : PState) (b : Nat) : (stampEnd s b).tls = s.tls := rfl

theorem endBlockF_top (t : PState) (tid b : Nat) (hen : t.enabled = true)
    (htls : t.tls tid = b) (hb : b ≠ 0) (hprev : (t.blocks b).previous = 0)
    (hroot : t.root = 0) :
    endBlockF 1 tid t =
      some { stampEnd t b with root := b, tls := Function.update t.tls tid 0 } := by
  show endBlockF (0 + 1) tid t = _
  simp only [endBlockF, hen, htls, Bool.not_true, Bool.false_eq_true, if_false]
  rw [if_neg hb]
  have h1 : ((stampEnd t b).blocks b).previous = 0 := by rw [stampEnd_previous]; exact hprev
  rw [if_neg (by rw [h1]; exact fun h => h rfl)]
  have h2 : putRootBlock 0 (stampEnd t b) b = some { stampEnd t b with root := b } := by
    dsimp only [putRootBlock]
    rw [if_pos (by rw [stampEnd_root]; exact hroot)]
  rw [h2]
  rfl

theorem emitStep_blocks (s : PState) (b : Nat) : (emitStep s b).blocks = s.blocks := by
  dsimp only [emitStep]
  split <;> rfl

theorem emitStep_sink_true (s : PState) (b : Nat) (h : s.hasWrite = true) :
    (emitStep s b).sink = s.sink ++ [s.blocks b] := by
  dsimp only [emitStep]
  rw [if_pos h]

theorem freeBlockChain_sink (s : PState) (a c : Nat) : (freeBlockChain s a c).sink = s.sink := rfl

theorem processBlock_leafOnly (t : PState) (b : Nat)
    (hsib : (t.blocks b).sibling = 0) (hchild : (t.blocks b).child = 0) :
    processBlock 2 t b = some (emitStep t b, b) := by
  show processBlock (1 + 1) t b = _
  dsimp only [processBlock]
  have hc : ((emitStep t b).blocks b).child = 0 := by rw [emitStep_blocks]; exact hchild
  have hs : ((emitStep t b).blocks b).sibling = 0 := by rw [emitStep_blocks]; exact hsib
  rw [if_neg (by rw [hc]; exact fun h => h rfl), if_neg (by rw [hs]; exact fun h => h rfl)]

theorem drain_single (t : PState) (b : Nat) (hb : b ≠ 0) (hroot : t.root = b)
    (hsib : (t.blocks b).sibling = 0) (hchild : (t.blocks b).child = 0)
    (hw : t.hasWrite = true) :
    ∃ t4, processRootBlock 3 t = some t4 ∧ t4.sink = t.sink ++ [t.blocks b] := by
  have heta : ({ t.blocks b with sibling := 0 } : PBlock) = t.blocks b := by rw [← hsib]
  dsimp only [processRootBlock]
  rw [hroot, if_neg hb]
  dsimp only [processRootLoop]
  rw [if_neg hb]
  have hS1 : updB { t with root := 0 } b
      { ({ t with root := 0 } : PState).blocks b with sibling := 0 } =
      ({ t with root := 0 } : PState) := by
    show updB { t with root := 0 } b { t.blocks b with sibling := 0 } = _
    rw [heta]
    simp [updB, Function.update_eq_self]
  rw [hS1]
  have hpb : processBlock 2 ({ t with root := 0 } : PState) b =
      some (emitStep { t with root := 0 } b, b) :=
    processBlock_leafOnly _ b hsib hchild
  rw [hpb]
  dsimp only
  rw [hsib]
  refine ⟨_, rfl, ?_⟩
  rw [freeBlockChain_sink,
    emitStep_sink_true _ b (show ({ t with root := 0 } : PState).hasWrite = true from hw)]

theorem update_keep_sibling (f : Nat → PBlock) (i : Nat) (d : BlockData) (x : Nat) :
    (Function.update f i { f i with data := d } x).sibling = (f x).sibling := by
  by_cases h : x = i
  · subst h; rw [Function.update_same]
  · rw [Function.update_noteq h]

theorem stampEnd_sibling (s : PState) (b x : Nat) :
    ((stampEnd s b).blocks x).sibling = (s.blocks x).sibling := by
  unfold stampEnd updB
  exact update_keep_sibling s.blocks b _ x

theorem singleSpanRun (s : PState) (tid : Nat) (msg : List Nat) (len d : Nat)
    (hen : s.enabled = true) (hw : s.hasWrite = true) (hroot : s.root = 0)
    (htls : s.tls tid = 0) (hfree : s.free.slot ≠ 0) :
    ∃ s3 s4, endBlockF 1 tid (tickClock d (beginBlock tid msg len s)) = some s3 ∧
      processRootBlock 3 s3 = some s4 ∧
      s4.sink = s.sink ++ [endedSpanBlock (s.counter + 1) s.cpu tid (s.nowTick - s.ground)
        (s.nowTick + (d : Int) - s.ground) msg len] := by
  rw [beginBlock_top s tid msg len hen htls hfree]
  set b := s.free.slot with hb
  set V := spanBlock (s.counter + 1) s.cpu tid (s.nowTick - s.ground) msg len with hV
  set SC := tickClock d
    { s with loopid := s.loopid + 1,
             free := { slot := (s.blocks b).child, tag := (s.loopid + 1) % 65536 },
             counter := s.counter + 1,
             blocks := Function.update s.blocks b V,
             tls := Function.update s.tls tid b } with hSC
  have hSCblocks : SC.blocks b = V := by
    show Function.update s.blocks b V b = V
    rw [Function.update_same]
  have hend := endBlockF_top SC tid b hen
    (show Function.update s.tls tid b tid = b by rw [Function.update_same])
    hfree (by rw [hSCblocks]; rfl) hroot
  rw [hend]
  set SD : PState := { stampEnd SC b with root := b, tls := Function.update SC.tls tid 0 }
    with hSD
  have hSDb : SD.blocks b = endedSpanBlock (s.counter + 1) s.cpu tid (s.nowTick - s.ground)
      (s.nowTick + (d : Int) - s.ground) msg len := by
    show (stampEnd SC b).blocks b = _
    show Function.update SC.blocks b
      { SC.blocks b with data := { (SC.blocks b).data with endt := SC.nowTick - SC.ground } }
      b = _
    rw [Function.update_same, hSCblocks]
    rfl
  obtain ⟨t4, h4, hsink⟩ := drain_single SD b hfree rfl
    (by rw [hSDb]; rfl) (by rw [hSDb]; rfl) hw
  refine ⟨SD, t4, rfl, h4, ?_⟩
  rw [hsink, hSDb]
  rfl

theorem copyName_take25 (msg : List Nat) :
    (copyName msg msg.length).take 25 = (msg ++ List.replicate 25 0).take 25 := by
  unfold copyName
  rcases le_or_lt msg.length 25 with hle | hlt
  · have h1 : min msg.length 25 = msg.length := min_eq_left hle
    rw [h1, List.take_length, List.take_take, show min 25 26 = 25 by decide,
      List.take_append_eq_append_take, List.take_append_eq_append_take,
      List.take_replicate, List.take_replicate]
    congr 2
    omega
  · have h1 : min msg.length 25 = 25 := min_eq_right (le_of_lt hlt)
    have h2 : 25 - msg.length = 0 := by omega
    rw [h1, List.take_take, show min 25 26 = 25 by decide,
      List.take_append_eq_append_take, List.take_append_eq_append_take,
      List.take_replicate, List.take_replicate, List.length_take, h2]
    have h3 : min 25 msg.length = 25 := min_eq_left (le_of_lt hlt)
    rw [h3]
    simp [List.take_take]


/-- Claim C10: a span begun by profile_begin_block while its thread had no
open block is emitted with parent_id equal to 0: allocation zeroes the whole
record and the top-level branch of profile_begin_block never writes parentid,
so the drained record carries parentid 0 and a consumer can recognise root
spans by parent_id = 0. -/
theorem claim_C10_root_parentid (s : PState) (tid : Nat) (msg : List Nat) (len d : Nat)
    (hen : s.enabled = true) (hw : s.hasWrite = true) (hroot : s.root = 0)
    (htls : s.tls tid = 0) (hfree : s.free.slot ≠ 0) :
    ∃ s3 s4, endBlockF 1 tid (tickClock d (beginBlock tid msg len s)) = some s3 ∧
      processRootBlock 3 s3 = some s4 ∧
      s4.sink = s.sink ++ [endedSpanBlock (s.counter + 1) s.cpu tid (s.nowTick - s.ground)
        (s.nowTick + (d : Int) - s.ground) msg len] ∧
      (endedSpanBlock (s.counter + 1) s.cpu tid (s.nowTick - s.ground)
        (s.nowTick + (d : Int) - s.ground) msg len).data.parentid = 0 := by
  obtain ⟨s3, s4, h3, h4, hsink⟩ := singleSpanRun s tid msg len d hen hw hroot htls hfree
  exact ⟨s3, s4, h3, h4, hsink, rfl⟩

/-- Witness for claim C10 at a concrete run: fresh enabled 4-slot pool, thread
7, a 12-byte name, clock advance 2; the emitted root-span record has parentid
0. -/
theorem claim_C10_witness :
    ∃ s3 s4, endBlockF 1 7 (tickClock 2 (beginBlock 7 (List.replicate 12 66) 12
        (enableOn (profileSetup zeroPool 256 true 10 3)))) = some s3 ∧
      processRootBlock 3 s3 = some s4 ∧
      s4.sink = (enableOn (profileSetup zeroPool 256 true 10 3)).sink ++
        [endedSpanBlock ((enableOn (profileSetup zeroPool 256 true 10 3)).counter + 1)
          (enableOn (profileSetup zeroPool 256 true 10 3)).cpu 7
          ((enableOn (profileSetup zeroPool 256 true 10 3)).nowTick -
            (enableOn (profileSetup zeroPool 256 true 10 3)).ground)
          ((enableOn (profileSetup zeroPool 256 true 10 3)).nowTick + (2 : Int) -
            (enableOn (profileSetup zeroPool 256 true 10 3)).ground)
          (List.replicate 12 66) 12] ∧
      (endedSpanBlock ((enableOn (profileSetup zeroPool 256 true 10 3)).counter + 1)
        (enableOn (profileSetup zeroPool 256 true 10 3)).cpu 7
        ((enableOn (profileSetup zeroPool 256 true 10 3)).nowTick -
          (enableOn (profileSetup zeroPool 256 true 10 3)).ground)
        ((enableOn (profileSetup zeroPool 256 true 10 3)).nowTick + (2 : Int) -
          (enableOn (profileSetup zeroPool 256 true 10 3)).ground)
        (List.replicate 12 66) 12).data.parentid = 0 :=
  claim_C10_root_parentid (enableOn (profileSetup zeroPool 256 true 10 3)) 7
    (List.replicate 12 66) 12 2 (by decide) (by decide) (by decide) (by decide) (by decide)

theorem STree.chain_perm_slots : ∀ t : STree, t.chain.Perm t.slots := by
  intro t
  induction t with
  | nil => exact List.Perm.refl _
  | mk b c s ihc ihs =>
    show (b :: (s.chain ++ c.chain)).Perm (b :: (c.slots ++ s.slots))
    exact List.Perm.cons b ((List.perm_append_comm.trans
      (List.Perm.append ihc ihs)).symm.symm |>.symm |>.symm)

theorem STree.leaf_mem : ∀ t : STree, t ≠ STree.nil → t.leaf ∈ t.slots := by
  intro t
  induction t with
  | nil => intro h; exact absurd rfl h
  | mk b c s ihc ihs =>
    intro _
    cases c with
    | nil =>
      cases s with
      | nil => show b ∈ b :: _; exact List.mem_cons_self b _
      | mk x cs ss =>
        show STree.leaf _ ∈ b :: (STree.slots STree.nil ++ _)
        have := ihs (by intro h; cases h)
        exact List.mem_cons_of_mem b (List.mem_append_right _ this)
    | mk x cc sc =>
      show STree.leaf _ ∈ b :: (_ ++ _)
      have := ihc (by intro h; cases h)
      exact List.mem_cons_of_mem b (List.mem_append_left _ this)

theorem STree.chain_ne_nil : ∀ t : STree, t ≠ STree.nil → t.chain ≠ [] := by
  intro t ht
  cases t with
  | nil => exact absurd rfl ht
  | mk b c s => show b :: _ ≠ []; exact List.cons_ne_nil b _

theorem STree.chain_getLast : ∀ t : STree, (ht : t ≠ STree.nil) →
    t.chain.getLast (t.chain_ne_nil ht) = t.leaf := by
  intro t
  induction t with
  | nil => intro h; exact absurd rfl h
  | mk b c s ihc ihs =>
    intro _
    cases c with
    | nil =>
      cases s with
      | nil => rfl
      | mk x cs ss =>
        show (b :: ((STree.mk x cs ss).chain ++ STree.chain STree.nil)).getLast _ =
          (STree.mk x cs ss).leaf
        have hne : (STree.mk x cs ss).chain ≠ [] := STree.chain_ne_nil _ (by intro h; cases h)
        have hlist : b :: ((STree.mk x cs ss).chain ++ STree.chain STree.nil) =
            b :: (STree.mk x cs ss).chain := by
          show b :: ((STree.mk x cs ss).chain ++ []) = _
          rw [List.append_nil]
        rw [List.getLast_congr _ (by simp [hne]) hlist, List.getLast_cons hne]
        exact ihs (by intro h; cases h)
    | mk x cc sc =>
      show (b :: (STree.chain s ++ (STree.mk x cc sc).chain)).getLast _ = (STree.mk x cc sc).leaf
      have hne : (STree.mk x cc sc).chain ≠ [] := STree.chain_ne_nil _ (by intro h; cases h)
      have hne2 : s.chain ++ (STree.mk x cc sc).chain ≠ [] :=
        fun h => hne (List.append_eq_nil.mp h).2
      rw [List.getLast_cons hne2, List.getLast_append_of_ne_nil hne]
      exact ihc (by intro h; cases h)

theorem chainTo_congr (f g : Nat → PBlock) :
    ∀ (l : List Nat) (x z : Nat), (∀ a ∈ l, (g a).child = (f a).child) →
      ChainTo f x l z → ChainTo g x l z := by
  intro l
  induction l with
  | nil =>
    intro x z _ h
    cases h
    exact ChainTo.refl x
  | cons a rest ih =>
    intro x z hagree h
    cases h with
    | step _ _ _ hx hrest =>
      refine ChainTo.step a rest z hx ?_
      rw [hagree a (List.mem_cons_self a rest)]
      exact ih _ _ (fun b hb => hagree b (List.mem_cons_of_mem a hb)) hrest

theorem chainTo_append (f : Nat → PBlock) :
    ∀ (A : List Nat) (x y : Nat) (B : List Nat) (z : Nat),
      ChainTo f x A y → ChainTo f y B z → ChainTo f x (A ++ B) z := by
  intro A
  induction A with
  | nil =>
    intro x y B z h1 h2
    cases h1
    exact h2
  | cons a rest ih =>
    intro x y B z h1 h2
    cases h1 with
    | step _ _ _ hx hrest =>
      exact ChainTo.step a (rest ++ B) z hx (ih _ _ _ _ hrest h2)

theorem chainTo_retarget (f g : Nat → PBlock) :
    ∀ (l : List Nat) (x z w : Nat) (hne : l ≠ []), ChainTo f x l z →
      (∀ a ∈ l.dropLast, (g a).child = (f a).child) →
      (g (l.getLast hne)).child = w → ChainTo g x l w := by
  intro l
  induction l with
  | nil => intro x z w hne; exact absurd rfl hne
  | cons a rest ih =>
    intro x z w hne h hdrop hlast
    cases h with
    | step _ _ _ hx hrest =>
      cases hr : rest with
      | nil =>
        subst hr
        cases hrest
        refine ChainTo.step a [] w hx ?_
        have hgx : (g a).child = w := by
          have h1 : (List.getLast [a] hne) = a := rfl
          rw [← h1]
          exact hlast
        rw [hgx]
        exact ChainTo.refl w
      | cons b rest2 =>
        subst hr
        have hne2 : b :: rest2 ≠ [] := List.cons_ne_nil b rest2
        have hstep : (g a).child = (f a).child := by
          apply hdrop
          rw [List.dropLast_cons₂]
          exact List.mem_cons_self a _
        refine ChainTo.step a (b :: rest2) w hx ?_
        rw [hstep]
        refine ih ((f a).child) z w hne2 hrest ?_ ?_
        · intro c hc
          apply hdrop
          rw [List.dropLast_cons₂]
          exact List.mem_cons_of_mem a hc
        · have h2 : (b :: rest2).getLast hne2 = (a :: b :: rest2).getLast hne := by
            rw [List.getLast_cons hne2]
          rw [h2]
          exact hlast

theorem chainTo_ne_zero (f : Nat → PBlock) :
    ∀ (l : List Nat) (x z : Nat), ChainTo f x l z → ∀ a ∈ l, a ≠ 0 := by
  intro l
  induction l with
  | nil => intro x z _ a ha; cases ha
  | cons b rest ih =>
    intro x z h a ha
    cases h with
    | step _ _ _ hx hrest =>
      rcases List.mem_cons.mp ha with rfl | ha2
      · exact hx
      · exact ih _ _ hrest a ha2

theorem emitList_true (f : Nat → PBlock) (l : List Nat) : emitList true f l = l.map f := rfl

theorem emitList_append (hw : Bool) (f : Nat → PBlock) (A B : List Nat) :
    emitList hw f (A ++ B) = emitList hw f A ++ emitList hw f B := by
  cases hw
  · rfl
  · rw [emitList_true, emitList_true, emitList_true, List.map_append]

theorem emitList_congr (hw : Bool) (f g : Nat → PBlock) (l : List Nat)
    (h : ∀ a ∈ l, g a = f a) : emitList hw g l = emitList hw f l := by
  cases hw
  · rfl
  · rw [emitList_true, emitList_true]
    exact List.map_congr_left h

theorem agreesB_congr (f g : Nat → PBlock) :
    ∀ t : STree, (∀ a ∈ t.slots, g a = f a) → STree.agreesB g t = STree.agreesB f t := by
  intro t
  induction t with
  | nil => intro _; rfl
  | mk b c s ihc ihs =>
    intro h
    have hb : g b = f b := h b (List.mem_cons_self b _)
    dsimp only [STree.agreesB]
    rw [hb, ihc (fun a ha => h a (List.mem_cons_of_mem b (List.mem_append_left _ ha))),
      ihs (fun a ha => h a (List.mem_cons_of_mem b (List.mem_append_right _ ha)))]

theorem sameCore_refl (a : PState) : sameCore a a :=
  ⟨rfl, rfl, rfl, rfl, rfl, rfl, rfl, rfl, rfl, rfl, rfl, rfl, rfl⟩

theorem sameCore_trans (a b c : PState) (h1 : sameCore a b) (h2 : sameCore b c) :
    sameCore a c := by
  obtain ⟨x1, x2, x3, x4, x5, x6, x7, x8, x9, x10, x11, x12, x13⟩ := h1
  obtain ⟨y1, y2, y3, y4, y5, y6, y7, y8, y9, y10, y11, y12, y13⟩ := h2
  exact ⟨x1.trans y1, x2.trans y2, x3.trans y3, x4.trans y4, x5.trans y5, x6.trans y6,
    x7.trans y7, x8.trans y8, x9.trans y9, x10.trans y10, x11.trans y11, x12.trans y12,
    x13.trans y13⟩

theorem emitStep_core (s : PState) (b : Nat) : sameCore (emitStep s b) s := by
  dsimp only [emitStep]
  split
  · exact ⟨rfl, rfl, rfl, rfl, rfl, rfl, rfl, rfl, rfl, rfl, rfl, rfl, rfl⟩
  · exact sameCore_refl s

theorem updB_core (s : PState) (i : Nat) (blk : PBlock) : sameCore (updB s i blk) s :=
  ⟨rfl, rfl, rfl, rfl, rfl, rfl, rfl, rfl, rfl, rfl, rfl, rfl, rfl⟩

theorem updB_sink (s : PState) (i : Nat) (blk : PBlock) : (updB s i blk).sink = s.sink := rfl

theorem updB_blocks_ne (s : PState) (i : Nat) (blk : PBlock) (x : Nat) (h : x ≠ i) :
    (updB s i blk).blocks x = s.blocks x := by
  show Function.update s.blocks i blk x = s.blocks x
  rw [Function.update_noteq h]

theorem updB_blocks_eq (s : PState) (i : Nat) (blk : PBlock) :
    (updB s i blk).blocks i = blk := by
  show Function.update s.blocks i blk i = blk
  rw [Function.update_same]

theorem emitStep_sink (s : PState) (b : Nat) :
    (emitStep s b).sink = s.sink ++ emitList s.hasWrite s.blocks [b] := by
  cases hw : s.hasWrite <;> simp [emitStep, emitList, hw]

theorem agrees_head_ne_zero (f : Nat → PBlock) (b : Nat) (c s : STree)
    (h : STree.agreesB f (STree.mk b c s) = true) : b ≠ 0 := by
  dsimp only [STree.agreesB] at h
  simp only [Bool.and_eq_true, bne_iff_ne, beq_iff_eq] at h
  exact h.1.1.1.1

theorem getLast_not_mem_dropLast (l : List Nat) (hne : l ≠ []) (hnd : l.Nodup) :
    l.getLast hne ∉ l.dropLast := by
  intro hmem
  have h := List.dropLast_append_getLast hne
  rw [← h, List.nodup_append] at hnd
  exact hnd.2.2 hmem (List.mem_singleton_self _)

theorem slots_mem_head (b : Nat) (c s : STree) : b ∈ STree.slots (STree.mk b c s) :=
  List.mem_cons_self b _

theorem slots_mem_left (b : Nat) (c s : STree) (x : Nat) (h : x ∈ c.slots) :
    x ∈ STree.slots (STree.mk b c s) :=
  List.mem_cons_of_mem b (List.mem_append_left _ h)

theorem slots_mem_right (b : Nat) (c s : STree) (x : Nat) (h : x ∈ s.slots) :
    x ∈ STree.slots (STree.mk b c s) :=
  List.mem_cons_of_mem b (List.mem_append_right _ h)

theorem slots_mem_cases (b : Nat) (c s : STree) (x : Nat)
    (h : x ∈ STree.slots (STree.mk b c s)) :
    x = b ∨ x ∈ c.slots ∨ x ∈ s.slots := by
  rcases List.mem_cons.mp h with h1 | h2
  · exact Or.inl h1
  · rcases List.mem_append.mp h2 with h3 | h3
    · exact Or.inr (Or.inl h3)
    · exact Or.inr (Or.inr h3)

theorem chain_mem_slots (t : STree) (x : Nat) (h : x ∈ t.chain) : x ∈ t.slots :=
  (STree.chain_perm_slots t).mem_iff.mp h

/-- Main lemma for the stream walk: on any subtree realised in the pool (shape
agreesB, distinct slots), _profile_process_block succeeds within fuel = size of
the subtree, returns the leaf of the flattened chain, emits exactly the records
of the subtree in preorder (node, child subtree, sibling subtree) when a writer
is installed, touches no slot outside the subtree, preserves every record's
data while zeroing its sibling link, and leaves the subtree reachable from its
head as a single child-linked chain in the order node, sibling subtree, child
subtree. -/
theorem processBlock_spec :
    ∀ (t : STree) (fuel : Nat) (st : PState), t ≠ STree.nil →
      STree.agreesB st.blocks t = true → t.slots.Nodup → t.size ≤ fuel →
      ∃ st', processBlock fuel st t.headSlot = some (st', t.leaf) ∧
        st'.sink = st.sink ++ emitList st.hasWrite st.blocks t.slots ∧
        (∀ x, x ∉ t.slots → st'.blocks x = st.blocks x) ∧
        (∀ x ∈ t.slots, (st'.blocks x).data = (st.blocks x).data ∧
          (st'.blocks x).sibling = 0) ∧
        ChainTo st'.blocks t.headSlot t.chain 0 ∧
        sameCore st' st := by
  intro t
  induction t with
  | nil => intro fuel st hne _ _ _; exact absurd rfl hne
  | mk b c s ihc ihs =>
    intro fuel st _ hag hnd hsz
    dsimp only [STree.agreesB] at hag
    simp only [Bool.and_eq_true, bne_iff_ne, beq_iff_eq] at hag
    obtain ⟨⟨⟨⟨hb0, hch⟩, hsb⟩, hagc⟩, hags⟩ := hag
    dsimp only [STree.slots] at hnd
    rw [List.nodup_cons] at hnd
    obtain ⟨hbmem, hndcs⟩ := hnd
    rw [List.nodup_append] at hndcs
    obtain ⟨hndc, hnds, hdisj⟩ := hndcs
    dsimp only [STree.size] at hsz
    cases fuel with
    | zero => omega
    | succ k =>
    have hsc : STree.size c ≤ k := by omega
    have hss : STree.size s ≤ k := by omega
    have hb_nc : b ∉ c.slots := fun h => hbmem (List.mem_append_left _ h)
    have hb_ns : b ∉ s.slots := fun h => hbmem (List.mem_append_right _ h)
    cases c with
    | nil =>
      dsimp only [STree.headSlot] at hch
      cases s with
      | nil =>
        dsimp only [STree.headSlot] at hsb
        dsimp only [STree.headSlot, STree.leaf, processBlock]
        rw [emitStep_blocks, hch, hsb]
        have hnot : ¬((0 : Nat) ≠ 0) := fun h => h rfl
        rw [if_neg hnot, if_neg hnot]
        refine ⟨emitStep st b, rfl, ?_, ?_, ?_, ?_, emitStep_core st b⟩
        · rw [emitStep_sink]; rfl
        · intro x _
          exact congrFun (emitStep_blocks st b) x
        · intro x hx
          rcases slots_mem_cases b STree.nil STree.nil x hx with rfl | h | h
          · constructor
            · rw [emitStep_blocks]
            · rw [emitStep_blocks]; exact hsb
          · exact absurd h (List.not_mem_nil x)
          · exact absurd h (List.not_mem_nil x)
        · have hc0 : ((emitStep st b).blocks b).child = 0 := by
            rw [emitStep_blocks]; exact hch
          refine ChainTo.step b _ 0 hb0 ?_
          rw [hc0]
          exact ChainTo.refl 0
      | mk sb sc ss =>
        dsimp only [STree.headSlot] at hsb
        have hsb0 : sb ≠ 0 := agrees_head_ne_zero _ _ _ _ hags
        have hags1 : STree.agreesB (emitStep st b).blocks (STree.mk sb sc ss) = true := by
          rw [emitStep_blocks]; exact hags
        obtain ⟨st2, hrec, hsink2, hframe2, hslots2, hchain2, hcore2⟩ :=
          ihs k (emitStep st b) (by intro h; cases h) hags1 hnds hss
        dsimp only [STree.headSlot] at hrec hchain2
        have h2b : st2.blocks b = st.blocks b :=
          (hframe2 b hb_ns).trans (congrFun (emitStep_blocks st b) b)
        obtain ⟨T, hT⟩ : ∃ T, T =
            updB (updB st2 b { st2.blocks b with child := (st2.blocks b).sibling }) b
              { (updB st2 b { st2.blocks b with child := (st2.blocks b).sibling }).blocks b with
                sibling := 0 } := ⟨_, rfl⟩
        have hnot : ¬((0 : Nat) ≠ 0) := fun h => h rfl
        have hstep : processBlock (k + 1) st b = some (T, STree.leaf (STree.mk sb sc ss)) := by
          dsimp only [processBlock]
          rw [emitStep_blocks, hch, hsb, if_neg hnot, if_pos hsb0, hrec]
          dsimp only
          rw [hT]
        have hTb : T.blocks b =
            { st2.blocks b with child := (st2.blocks b).sibling, sibling := 0 } := by
          rw [hT, updB_blocks_eq, updB_blocks_eq]
        have hTx : ∀ x, x ≠ b → T.blocks x = st2.blocks x := by
          intro x hxb
          rw [hT, updB_blocks_ne _ _ _ _ hxb, updB_blocks_ne _ _ _ _ hxb]
        have hTsink : T.sink = st2.sink := by rw [hT, updB_sink, updB_sink]
        have hTcore : sameCore T st2 := by
          rw [hT]; exact sameCore_trans _ _ _ (updB_core _ _ _) (updB_core _ _ _)
        refine ⟨T, ?_, ?_, ?_, ?_, ?_, ?_⟩
        · show processBlock (k + 1) st (STree.mk b STree.nil (STree.mk sb sc ss)).headSlot =
            some (T, (STree.mk b STree.nil (STree.mk sb sc ss)).leaf)
          dsimp only [STree.headSlot, STree.leaf]
          exact hstep
        · rw [hTsink, hsink2, emitStep_sink, emitStep_blocks, emitStep_hasWrite]
          show _ = st.sink ++ emitList st.hasWrite st.blocks
            ([b] ++ STree.slots (STree.mk sb sc ss))
          rw [emitList_append, List.append_assoc]
        · intro x hx
          have hxb : x ≠ b := fun h => hx (h ▸ slots_mem_head b _ _)
          have hxs : x ∉ (STree.mk sb sc ss).slots := fun h => hx (slots_mem_right b _ _ x h)
          rw [hTx x hxb, hframe2 x hxs, emitStep_blocks]
        · intro x hx
          rcases slots_mem_cases b _ _ x hx with rfl | h | h
          · constructor
            · rw [hTb, h2b]
            · rw [hTb]
          · exact absurd h (List.not_mem_nil x)
          · have hxb : x ≠ b := fun he => hb_ns (he ▸ h)
            obtain ⟨hd, hs0⟩ := hslots2 x h
            constructor
            · rw [hTx x hxb, hd, emitStep_blocks]
            · rw [hTx x hxb]
              exact hs0
        · have hchain2' : ChainTo T.blocks sb (STree.chain (STree.mk sb sc ss)) 0 := by
            refine chainTo_congr st2.blocks T.blocks _ sb 0 ?_ hchain2
            intro a ha
            have hab : a ≠ b := fun he => hb_ns (he ▸ chain_mem_slots _ a ha)
            rw [hTx a hab]
          have hlist : STree.chain (STree.mk b STree.nil (STree.mk sb sc ss)) =
              b :: STree.chain (STree.mk sb sc ss) := by
            show b :: (STree.chain (STree.mk sb sc ss) ++ []) = _
            rw [List.append_nil]
          show ChainTo T.blocks (STree.mk b STree.nil (STree.mk sb sc ss)).headSlot
            (STree.chain (STree.mk b STree.nil (STree.mk sb sc ss))) 0
          dsimp only [STree.headSlot]
          rw [hlist]
          refine ChainTo.step b _ 0 hb0 ?_
          have hTbc : (T.blocks b).child = sb := by rw [hTb, h2b, hsb]
          rw [hTbc]
          exact hchain2'
        · exact sameCore_trans _ _ _ hTcore
            (sameCore_trans _ _ _ hcore2 (emitStep_core st b))
    | mk cb cc cs =>
      dsimp only [STree.headSlot] at hch
      have hcb0 : cb ≠ 0 := agrees_head_ne_zero _ _ _ _ hagc
      have hagc1 : STree.agreesB (emitStep st b).blocks (STree.mk cb cc cs) = true := by
        rw [emitStep_blocks]; exact hagc
      obtain ⟨st2, hrec1, hsink2, hframe2, hslots2, hchain2, hcore2⟩ :=
        ihc k (emitStep st b) (by intro h; cases h) hagc1 hndc hsc
      dsimp only [STree.headSlot] at hrec1 hchain2
      have h2b : st2.blocks b = st.blocks b :=
        (hframe2 b hb_nc).trans (congrFun (emitStep_blocks st b) b)
      cases s with
      | nil =>
        dsimp only [STree.headSlot] at hsb
        have hstep : processBlock (k + 1) st b =
            some (st2, STree.leaf (STree.mk cb cc cs)) := by
          dsimp only [processBlock]
          rw [emitStep_blocks, hch, if_pos hcb0, hrec1]
          dsimp only
          have hcond : ¬((st2.blocks b).sibling ≠ 0) := by
            rw [h2b, hsb]; exact fun h => h rfl
          rw [if_neg hcond]
        refine ⟨st2, ?_, ?_, ?_, ?_, ?_, ?_⟩
        · show processBlock (k + 1) st (STree.mk b (STree.mk cb cc cs) STree.nil).headSlot =
            some (st2, (STree.mk b (STree.mk cb cc cs) STree.nil).leaf)
          dsimp only [STree.headSlot, STree.leaf]
          exact hstep
        · rw [hsink2, emitStep_sink, emitStep_blocks, emitStep_hasWrite]
          show _ = st.sink ++ emitList st.hasWrite st.blocks
            ([b] ++ (STree.slots (STree.mk cb cc cs) ++ []))
          rw [List.append_nil, emitList_append, List.append_assoc]
        · intro x hx
          have hxc : x ∉ (STree.mk cb cc cs).slots := fun h => hx (slots_mem_left b _ _ x h)
          rw [hframe2 x hxc, emitStep_blocks]
        · intro x hx
          rcases slots_mem_cases b _ _ x hx with rfl | h | h
          · constructor
            · rw [h2b]
            · rw [h2b]
              exact hsb
          · obtain ⟨hd, hs0⟩ := hslots2 x h
            constructor
            · rw [hd, emitStep_blocks]
            · exact hs0
          · exact absurd h (List.not_mem_nil x)
        · show ChainTo st2.blocks (STree.mk b (STree.mk cb cc cs) STree.nil).headSlot
            (STree.chain (STree.mk b (STree.mk cb cc cs) STree.nil)) 0
          dsimp only [STree.headSlot]
          refine ChainTo.step b _ 0 hb0 ?_
          have hbc : (st2.blocks b).child = cb := by rw [h2b]; exact hch
          rw [hbc]
          show ChainTo st2.blocks cb (STree.chain (STree.mk cb cc cs)) 0
          exact hchain2
        · exact sameCore_trans _ _ _ hcore2 (emitStep_core st b)
      | mk sb sc ss =>
        dsimp only [STree.headSlot] at hsb
        have hsb0 : sb ≠ 0 := agrees_head_ne_zero _ _ _ _ hags
        have hpr : ∀ a ∈ (STree.mk sb sc ss).slots, st2.blocks a = st.blocks a := fun a ha =>
          (hframe2 a (fun hc => hdisj hc ha)).trans (congrFun (emitStep_blocks st b) a)
        have hagrees3 : STree.agreesB st2.blocks (STree.mk sb sc ss) = true :=
          (agreesB_congr st.blocks st2.blocks _ hpr).trans hags
        obtain ⟨st3, hrec2, hsink3, hframe3, hslots3, hchain3, hcore3⟩ :=
          ihs k st2 (by intro h; cases h) hagrees3 hnds hss
        dsimp only [STree.headSlot] at hrec2 hchain3
        have h3b : st3.blocks b = st.blocks b := (hframe3 b hb_ns).trans h2b
        have hLmem : STree.leaf (STree.mk sb sc ss) ∈ (STree.mk sb sc ss).slots :=
          STree.leaf_mem _ (by intro h; cases h)
        have hLnb : STree.leaf (STree.mk sb sc ss) ≠ b := fun he => hb_ns (he ▸ hLmem)
        have hbL : b ≠ STree.leaf (STree.mk sb sc ss) := hLnb.symm
        have hLnc : STree.leaf (STree.mk sb sc ss) ∉ (STree.mk cb cc cs).slots :=
          fun h => hdisj h hLmem
        have h2L : st2.blocks (STree.leaf (STree.mk sb sc ss)) =
            st.blocks (STree.leaf (STree.mk sb sc ss)) := hpr _ hLmem
        obtain ⟨T1, hT1⟩ : ∃ T1, T1 = updB st3 (STree.leaf (STree.mk sb sc ss))
            { st3.blocks (STree.leaf (STree.mk sb sc ss)) with
              child := (st3.blocks b).child } := ⟨_, rfl⟩
        obtain ⟨T2, hT2⟩ : ∃ T2, T2 = updB T1 b
            { T1.blocks b with child := (T1.blocks b).sibling } := ⟨_, rfl⟩
        obtain ⟨T3, hT3⟩ : ∃ T3, T3 = updB T2 b
            { T2.blocks b with sibling := 0 } := ⟨_, rfl⟩
        have hcond2 : (st2.blocks b).sibling ≠ 0 := by rw [h2b, hsb]; exact hsb0
        have hrec2x : processBlock k st2 ((st2.blocks b).sibling) =
            some (st3, STree.leaf (STree.mk sb sc ss)) := by
          rw [h2b, hsb]; exact hrec2
        have hstep : processBlock (k + 1) st b =
            some (T3, STree.leaf (STree.mk cb cc cs)) := by
          dsimp only [processBlock]
          rw [emitStep_blocks, hch, if_pos hcb0, hrec1]
          dsimp only
          rw [if_pos hcond2, hrec2x]
          dsimp only
          rw [hT3, hT2, hT1]
        have hT1L : T1.blocks (STree.leaf (STree.mk sb sc ss)) =
            { st3.blocks (STree.leaf (STree.mk sb sc ss)) with
              child := (st3.blocks b).child } := by
          rw [hT1, updB_blocks_eq]
        have hT1x : ∀ x, x ≠ STree.leaf (STree.mk sb sc ss) → T1.blocks x = st3.blocks x := by
          intro x hx
          rw [hT1, updB_blocks_ne _ _ _ _ hx]
        have hT1b : T1.blocks b = st.blocks b := (hT1x b hbL).trans h3b
        have hT2b : T2.blocks b = { T1.blocks b with child := (T1.blocks b).sibling } := by
          rw [hT2, updB_blocks_eq]
        have hT2x : ∀ x, x ≠ b → T2.blocks x = T1.blocks x := by
          intro x hx
          rw [hT2, updB_blocks_ne _ _ _ _ hx]
        have hT3b : T3.blocks b = { T2.blocks b with sibling := 0 } := by
          rw [hT3, updB_blocks_eq]
        have hT3x : ∀ x, x ≠ b → T3.blocks x = T2.blocks x := by
          intro x hx
          rw [hT3, updB_blocks_ne _ _ _ _ hx]
        have hT3bchild : (T3.blocks b).child = sb := by
          have e1 : (T3.blocks b).child = (T2.blocks b).child := by rw [hT3b]
          have e2 : (T2.blocks b).child = (T1.blocks b).sibling := by rw [hT2b]
          rw [e1, e2, hT1b, hsb]
        have hT3bsib : (T3.blocks b).sibling = 0 := by rw [hT3b]
        have hT3bdata : (T3.blocks b).data = (st.blocks b).data := by
          have e1 : (T3.blocks b).data = (T2.blocks b).data := by rw [hT3b]
          have e2 : (T2.blocks b).data = (T1.blocks b).data := by rw [hT2b]
          rw [e1, e2, hT1b]
        have hT3L : T3.blocks (STree.leaf (STree.mk sb sc ss)) =
            { st3.blocks (STree.leaf (STree.mk sb sc ss)) with
              child := (st3.blocks b).child } :=
          ((hT3x _ hLnb).trans (hT2x _ hLnb)).trans hT1L
        have hT1Lchild : (T1.blocks (STree.leaf (STree.mk sb sc ss))).child = cb := by
          have e : (T1.blocks (STree.leaf (STree.mk sb sc ss))).child =
              (st3.blocks b).child := by rw [hT1L]
          rw [e, h3b, hch]
        have hT3other : ∀ x, x ≠ b → x ≠ STree.leaf (STree.mk sb sc ss) →
            T3.blocks x = st3.blocks x := fun x hxb hxL =>
          ((hT3x x hxb).trans (hT2x x hxb)).trans (hT1x x hxL)
        have hT3sink : T3.sink = st3.sink := by
          rw [hT3, updB_sink, hT2, updB_sink, hT1, updB_sink]
        have hT3core : sameCore T3 st3 := by
          rw [hT3, hT2, hT1]
          exact sameCore_trans _ _ _ (updB_core _ _ _)
            (sameCore_trans _ _ _ (updB_core _ _ _) (updB_core _ _ _))
        have hw2 : st2.hasWrite = st.hasWrite :=
          hcore2.2.2.2.2.2.1.trans (emitStep_hasWrite st b)
        refine ⟨T3, ?_, ?_, ?_, ?_, ?_, ?_⟩
        · show processBlock (k + 1) st
              (STree.mk b (STree.mk cb cc cs) (STree.mk sb sc ss)).headSlot =
            some (T3, (STree.mk b (STree.mk cb cc cs) (STree.mk sb sc ss)).leaf)
          dsimp only [STree.headSlot, STree.leaf]
          exact hstep
        · rw [hT3sink, hsink3, hsink2, emitStep_sink, emitStep_blocks, emitStep_hasWrite,
            hw2, emitList_congr st.hasWrite st.blocks st2.blocks _ hpr]
          show _ = st.sink ++ emitList st.hasWrite st.blocks
            ([b] ++ (STree.slots (STree.mk cb cc cs) ++ STree.slots (STree.mk sb sc ss)))
          rw [emitList_append, emitList_append]
          simp only [List.append_assoc]
        · intro x hx
          have hxb : x ≠ b := fun h => hx (h ▸ slots_mem_head b _ _)
          have hxc : x ∉ (STree.mk cb cc cs).slots := fun h => hx (slots_mem_left b _ _ x h)
          have hxs : x ∉ (STree.mk sb sc ss).slots := fun h => hx (slots_mem_right b _ _ x h)
          have hxL : x ≠ STree.leaf (STree.mk sb sc ss) := fun h => hxs (h ▸ hLmem)
          rw [hT3other x hxb hxL, hframe3 x hxs, hframe2 x hxc, emitStep_blocks]
        · intro x hx
          rcases slots_mem_cases b _ _ x hx with rfl | h | h
          · exact ⟨hT3bdata, hT3bsib⟩
          · have hxb : x ≠ b := fun he => hb_nc (he ▸ h)
            have hxL : x ≠ STree.leaf (STree.mk sb sc ss) := fun he => hLnc (he ▸ h)
            have hxs : x ∉ (STree.mk sb sc ss).slots := fun hm => hdisj h hm
            obtain ⟨hd, hs0⟩ := hslots2 x h
            constructor
            · rw [hT3other x hxb hxL, hframe3 x hxs, hd, emitStep_blocks]
            · rw [hT3other x hxb hxL, hframe3 x hxs]
              exact hs0
          · have hxb : x ≠ b := fun he => hb_ns (he ▸ h)
            by_cases hxL : x = STree.leaf (STree.mk sb sc ss)
            · obtain ⟨hd3, hs3⟩ := hslots3 x h
              constructor
              · have e : (T3.blocks x).data = (st3.blocks x).data := by rw [hxL, hT3L]
                rw [e, hd3, hpr x h]
              · have e : (T3.blocks x).sibling = (st3.blocks x).sibling := by rw [hxL, hT3L]
                rw [e]
                exact hs3
            · obtain ⟨hd3, hs3⟩ := hslots3 x h
              constructor
              · rw [hT3other x hxb hxL, hd3, hpr x h]
              · rw [hT3other x hxb hxL]
                exact hs3
        · show ChainTo T3.blocks
            (STree.mk b (STree.mk cb cc cs) (STree.mk sb sc ss)).headSlot
            (STree.chain (STree.mk b (STree.mk cb cc cs) (STree.mk sb sc ss))) 0
          dsimp only [STree.headSlot]
          have hchne : STree.chain (STree.mk sb sc ss) ≠ [] :=
            STree.chain_ne_nil _ (by intro h; cases h)
          have hndchain : (STree.chain (STree.mk sb sc ss)).Nodup :=
            ((STree.chain_perm_slots _).nodup_iff).mpr hnds
          have hlastL : (STree.chain (STree.mk sb sc ss)).getLast hchne =
              STree.leaf (STree.mk sb sc ss) :=
            STree.chain_getLast _ (by intro h; cases h)
          have hLdrop : STree.leaf (STree.mk sb sc ss) ∉
              (STree.chain (STree.mk sb sc ss)).dropLast := by
            have h0 := getLast_not_mem_dropLast (STree.chain (STree.mk sb sc ss)) hchne hndchain
            rw [hlastL] at h0
            exact h0
          have hA : ChainTo T1.blocks sb (STree.chain (STree.mk sb sc ss)) cb := by
            refine chainTo_retarget st3.blocks T1.blocks _ sb 0 cb hchne hchain3 ?_ ?_
            · intro a ha
              have haL : a ≠ STree.leaf (STree.mk sb sc ss) := fun he => hLdrop (he ▸ ha)
              rw [hT1x a haL]
            · rw [hlastL]
              exact hT1Lchild
          have hB : ChainTo T3.blocks sb (STree.chain (STree.mk sb sc ss)) cb := by
            refine chainTo_congr T1.blocks T3.blocks _ sb cb ?_ hA
            intro a ha
            have hab : a ≠ b := fun he => hb_ns (he ▸ chain_mem_slots _ a ha)
            rw [hT3x a hab, hT2x a hab]
          have hC : ChainTo T3.blocks cb (STree.chain (STree.mk cb cc cs)) 0 := by
            refine chainTo_congr st2.blocks T3.blocks _ cb 0 ?_ hchain2
            intro a ha
            have hac : a ∈ (STree.mk cb cc cs).slots := chain_mem_slots _ a ha
            have hab : a ≠ b := fun he => hb_nc (he ▸ hac)
            have haL : a ≠ STree.leaf (STree.mk sb sc ss) := fun he => hLnc (he ▸ hac)
            have has : a ∉ (STree.mk sb sc ss).slots := fun hm => hdisj hac hm
            rw [hT3other a hab haL, hframe3 a has]
          have hD : ChainTo T3.blocks sb
              (STree.chain (STree.mk sb sc ss) ++ STree.chain (STree.mk cb cc cs)) 0 :=
            chainTo_append T3.blocks _ sb cb _ 0 hB hC
          refine ChainTo.step b _ 0 hb0 ?_
          rw [hT3bchild]
          exact hD
        · exact sameCore_trans _ _ _ hT3core (sameCore_trans _ _ _ hcore3
            (sameCore_trans _ _ _ hcore2 (emitStep_core st b)))

/-- Claim C3 (amended): for every well-formed subtree (child/sibling links
forming a tree of distinct slots, per the shape invariants),
_profile_process_block visits and emits each record of the subtree exactly
once — the sink receives precisely the records of the subtree, in preorder
(node, child subtree, sibling subtree) — and on return every record of the
subtree is reachable from the root by following only child links, all sibling
fields in the subtree are 0, and the returned block is the last element of
that child-linked chain; the chain visits exactly the emitted records (it is a
permutation of the emission order), but its order is node, sibling subtree,
child subtree, which differs from the emission order as soon as a node has
both a child and a sibling (counterexample claim_C3_counterexample). -/
theorem claim_C3_flatten (t : STree) (fuel : Nat) (st : PState)
    (hne : t ≠ STree.nil) (hag : STree.agreesB st.blocks t = true)
    (hnd : t.slots.Nodup) (hsz : t.size ≤ fuel) :
    ∃ st', processBlock fuel st t.headSlot = some (st', t.leaf) ∧
      st'.sink = st.sink ++ emitList st.hasWrite st.blocks t.slots ∧
      (∀ x ∈ t.slots, (st'.blocks x).sibling = 0) ∧
      ChainTo st'.blocks t.headSlot t.chain 0 ∧
      t.chain.Perm t.slots := by
  obtain ⟨st', h1, h2, _, h4, h5, _⟩ := processBlock_spec t fuel st hne hag hnd hsz
  exact ⟨st', h1, h2, fun x hx => (h4 x hx).2, h5, STree.chain_perm_slots t⟩

/-- Witness for claim C3: the three-node tree of the counterexample state
satisfies every hypothesis, and the walk flattens it as described. -/
theorem claim_C3_witness :
    (walkCexTree ≠ STree.nil ∧ STree.agreesB walkCexState.blocks walkCexTree = true ∧
      walkCexTree.slots.Nodup ∧ walkCexTree.size ≤ 5) ∧
    (∃ st', processBlock 5 walkCexState walkCexTree.headSlot = some (st', walkCexTree.leaf) ∧
      st'.sink = walkCexState.sink ++
        emitList walkCexState.hasWrite walkCexState.blocks walkCexTree.slots ∧
      (∀ x ∈ walkCexTree.slots, (st'.blocks x).sibling = 0) ∧
      ChainTo st'.blocks walkCexTree.headSlot walkCexTree.chain 0 ∧
      walkCexTree.chain.Perm walkCexTree.slots) :=
  ⟨⟨by decide, by decide, by decide, by decide⟩,
    claim_C3_flatten walkCexTree 5 walkCexState (by decide) (by decide) (by decide) (by decide)⟩

/-- The state after _profile_allocate_block pops slot h off the free list:
loop counter bumped, free head moved to the child of h, slot h memset to
zero. -/
def allocState (s : PState) (h : Nat) : PState :=
  { s with loopid := s.loopid + 1,
           free := { slot := (s.blocks h).child, tag := (s.loopid + 1) % 65536 },
           blocks := Function.update s.blocks h zeroBlock }

theorem allocState_blocks_other (s : PState) (h x : Nat) (hx : x ≠ h) :
    (allocState s h).blocks x = s.blocks x := by
  show Function.update s.blocks h zeroBlock x = s.blocks x
  rw [Function.update_noteq hx]

theorem allocState_blocks_self (s : PState) (h : Nat) :
    (allocState s h).blocks h = zeroBlock := by
  show Function.update s.blocks h zeroBlock h = zeroBlock
  rw [Function.update_same]

theorem alloc_fresh (s : PState) (h n : Nat) (hf : FreshFrom s h n) (hlt : h < n) :
    allocate s = (some h, allocState s h) ∧ FreshFrom (allocState s h) (h + 1) n := by
  obtain ⟨hfree, h1, hn, hall⟩ := hf
  have hh0 : h ≠ 0 := by omega
  constructor
  · dsimp only [allocate, allocState]
    rw [hfree, if_pos hlt, if_neg hh0]
  · refine ⟨?_, by omega, by omega, ?_⟩
    · show (s.blocks h).child = _
      obtain ⟨hc1, hc2, _⟩ := hall h hlt (le_refl h)
      by_cases hh1 : h + 1 < n
      · rw [if_pos hh1]
        exact hc1 hh1
      · rw [if_neg hh1]
        exact hc2 (by omega)
    · intro j hj hj1
      have hne : j ≠ h := by omega
      rw [allocState_blocks_other s h j hne]
      exact hall j hj (by omega)

/-- The effect of one iteration of the message continuation loop on the state:
pop the head of the fresh free list into slot c, fill it with the continuation
payload D linked after subIdx, and append it to the child chain. -/
def stepState (u : PState) (c subIdx : Nat) (D : BlockData) : PState :=
  let u2 : PState := { allocState u c with counter := (allocState u c).counter + 1 }
  let u3 := updB u2 c { u2.blocks c with data := D, sibling := 0 }
  let u4 := updB u3 subIdx { u3.blocks subIdx with child := c }
  updB u4 c { u4.blocks c with previous := subIdx }

theorem stepState_blocks_other (u : PState) (c subIdx : Nat) (D : BlockData) (x : Nat)
    (hx1 : x ≠ c) (hx2 : x ≠ subIdx) : (stepState u c subIdx D).blocks x = u.blocks x := by
  dsimp only [stepState, updB, allocState]
  rw [Function.update_noteq hx1, Function.update_noteq hx2, Function.update_noteq hx1,
    Function.update_noteq hx1]

theorem stepState_blocks_sub (u : PState) (c subIdx : Nat) (D : BlockData)
    (hne : subIdx ≠ c) :
    (stepState u c subIdx D).blocks subIdx = { u.blocks subIdx with child := c } := by
  dsimp only [stepState, updB, allocState]
  rw [Function.update_noteq hne, Function.update_same, Function.update_noteq hne,
    Function.update_noteq hne]

theorem stepState_blocks_c (u : PState) (c subIdx : Nat) (D : BlockData)
    (hne : subIdx ≠ c) :
    (stepState u c subIdx D).blocks c =
      { data := D, previous := subIdx, sibling := 0, child := 0 } := by
  dsimp only [stepState, updB, allocState]
  rw [Function.update_same, Function.update_noteq (Ne.symm hne), Function.update_same,
    Function.update_same]
  rfl

theorem stepState_counter (u : PState) (c subIdx : Nat) (D : BlockData) :
    (stepState u c subIdx D).counter = u.counter + 1 := rfl

theorem stepState_misc (u : PState) (c subIdx : Nat) (D : BlockData) :
    (stepState u c subIdx D).root = u.root ∧ (stepState u c subIdx D).tls = u.tls ∧
    (stepState u c subIdx D).sink = u.sink ∧
    (stepState u c subIdx D).hasWrite = u.hasWrite ∧
    (stepState u c subIdx D).enabled = u.enabled ∧
    (stepState u c subIdx D).nowTick = u.nowTick ∧
    (stepState u c subIdx D).ground = u.ground ∧ (stepState u c subIdx D).cpu = u.cpu :=
  ⟨rfl, rfl, rfl, rfl, rfl, rfl, rfl, rfl⟩

theorem stepState_fresh (u : PState) (h n subIdx : Nat) (D : BlockData)
    (hf : FreshFrom u h n) (hlt : h < n) (hsub : subIdx < h) :
    FreshFrom (stepState u h subIdx D) (h + 1) n := by
  obtain ⟨hfree, h1, hn, hall⟩ := hf
  refine ⟨?_, by omega, by omega, ?_⟩
  · have hfreeval : (stepState u h subIdx D).free =
        { slot := (u.blocks h).child, tag := (u.loopid + 1) % 65536 } := rfl
    show (stepState u h subIdx D).free.slot = _
    rw [hfreeval]
    show (u.blocks h).child = _
    obtain ⟨hc1, hc2, _⟩ := hall h hlt (le_refl h)
    by_cases hh1 : h + 1 < n
    · rw [if_pos hh1]
      exact hc1 hh1
    · rw [if_neg hh1]
      exact hc2 (by omega)
  · intro j hj hj1
    have e : (stepState u h subIdx D).blocks j = u.blocks j :=
      stepState_blocks_other u h subIdx D j (by omega) (by omega)
    rw [e]
    exact hall j hj (by omega)

theorem lineTree_slots : ∀ (m q : Nat), (lineTree q m).slots = List.range' q m := by
  intro m
  induction m with
  | zero => intro q; rfl
  | succ m ih =>
    intro q
    show q :: ((lineTree (q + 1) m).slots ++ []) = _
    rw [List.append_nil, ih (q + 1)]
    rfl

theorem lineTree_size : ∀ (m q : Nat), (lineTree q m).size = m := by
  intro m
  induction m with
  | zero => intro q; rfl
  | succ m ih =>
    intro q
    show 1 + (lineTree (q + 1) m).size + 0 = m + 1
    rw [ih]
    omega

theorem lineTree_ne_nil (m q : Nat) : lineTree q (m + 1) ≠ STree.nil := by
  intro h
  exact STree.noConfusion h

theorem lineTree_leaf : ∀ (m q : Nat), (lineTree q (m + 1)).leaf = q + m := by
  intro m
  induction m with
  | zero => intro q; rfl
  | succ m ih =>
    intro q
    show (lineTree (q + 1) (m + 1)).leaf = q + (m + 1)
    rw [ih (q + 1)]
    omega

theorem lineTree_agrees (f : Nat → PBlock) :
    ∀ (m q : Nat), 1 ≤ q →
      (∀ j, j < m → (f (q + j)).sibling = 0 ∧
        (f (q + j)).child = (if j + 1 = m then 0 else q + j + 1)) →
      STree.agreesB f (lineTree q m) = true := by
  intro m
  induction m with
  | zero => intro q _ _; rfl
  | succ m ih =>
    intro q hq hall
    obtain ⟨hs0, hc0⟩ := hall 0 (by omega)
    simp only [Nat.add_zero] at hs0 hc0
    have hhead : (lineTree (q + 1) m).headSlot = (if 0 + 1 = m + 1 then 0 else q + 1) := by
      cases m with
      | zero => rfl
      | succ m2 =>
        show q + 1 = _
        rw [if_neg (by omega)]
    dsimp only [lineTree, STree.agreesB]
    simp only [Bool.and_eq_true, bne_iff_ne, beq_iff_eq]
    refine ⟨⟨⟨⟨by omega, ?_⟩, hs0⟩, ?_⟩, ?_⟩
    · rw [hc0, hhead]
    · refine ih (q + 1) (by omega) ?_
      intro j hj
      obtain ⟨hsj, hcj⟩ := hall (j + 1) (by omega)
      constructor
      · rw [show q + 1 + j = q + (j + 1) from by omega]
        exact hsj
      · rw [show q + 1 + j = q + (j + 1) from by omega, hcj]
        by_cases hj2 : j + 1 = m
        · rw [if_pos (by omega : j + 1 + 1 = m + 1), if_pos hj2]
        · rw [if_neg (by omega : ¬(j + 1 + 1 = m + 1)), if_neg hj2]
    · trivial

/-- One iteration of the message continuation loop, as an equation: with a
fresh slot c at the head of the free list and a continuation payload D built
from the current reads, the loop body reduces to a recursive call on the
advanced message from state stepState u c subIdx D. -/
theorem messageLoop_step (k2 : Nat) (master : Nat) (mid' : Int) (msgR : List Nat)
    (lenR : Nat) (subIdx c : Nat) (u : PState) (D : BlockData)
    (hlen0 : lenR ≠ 0) (hfree : u.free.slot = c) (hc0 : c ≠ 0)
    (hsubc : subIdx ≠ c) (hmc : master ≠ c)
    (hD : D = { id := mid' + 1, parentid := (u.blocks subIdx).data.endt,
                processor := (u.blocks master).data.processor,
                thread := (u.blocks master).data.thread,
                start := (u.blocks master).data.start,
                endt := ((u.counter + 1 : Nat) : Int),
                name := copyName msgR lenR })
    (hchild0 : (u.blocks subIdx).child = 0) :
    messageLoop (k2 + 1) master mid' msgR lenR subIdx u =
      messageLoop k2 master mid' (msgR.drop 25) (if lenR > 25 then lenR - 25 else 0) c
        (stepState u c subIdx D) := by
  dsimp only [messageLoop, stepState, allocState, allocate, updB]
  rw [if_neg hlen0, hfree, if_neg hc0]
  dsimp only
  rw [Function.update_noteq hmc, Function.update_noteq hsubc, hchild0, hD]
  rw [if_neg (fun h => h rfl : ¬((0 : Nat) ≠ 0))]

theorem stepState_blocks_data (u : PState) (c subIdx : Nat) (D : BlockData) (x : Nat)
    (hx : x ≠ c) : ((stepState u c subIdx D).blocks x).data = (u.blocks x).data := by
  by_cases hxs : x = subIdx
  · subst hxs
    rw [stepState_blocks_sub u c x D hx]
  · rw [stepState_blocks_other u c subIdx D x hx hxs]

/-- Main lemma for the continuation loop of _profile_put_message_block: from a
state whose pool is fresh from slot q + i, whose master record (slot q)
carries the message header and whose last built segment (slot q + i - 1) has
the sequence number c0 + i in endt and no child, the loop builds exactly
rem = ceil((len - 25 i) / 25) continuation records in slots q + i, ...,
q + i + rem - 1, each holding the payload msgData of its index, chained
through child links, and completes successfully. -/
theorem messageLoop_spec :
    ∀ (rem k i : Nat) (u : PState) (q n : Nat) (mid : Int) (p tid : Nat) (sigma : Int)
      (msg : List Nat) (len c0 : Nat),
      1 ≤ q → 1 ≤ i → 25 * i < len → rem = (len - 25 * i + 24) / 25 → rem + 1 ≤ k →
      q + i + rem ≤ n → FreshFrom u (q + i) n → u.counter = c0 + i →
      (u.blocks q).data.processor = p → (u.blocks q).data.thread = tid →
      (u.blocks q).data.start = sigma →
      (u.blocks (q + i - 1)).data.endt = ((c0 + i : Nat) : Int) →
      (u.blocks (q + i - 1)).child = 0 →
      ∃ v, messageLoop k q mid (msg.drop (25 * i)) (len - 25 * i) (q + i - 1) u =
          some (v, true) ∧
        v.counter = c0 + i + rem ∧
        FreshFrom v (q + i + rem) n ∧
        (∀ x, x ≠ q + i - 1 → (x < q + i ∨ q + i + rem ≤ x) → v.blocks x = u.blocks x) ∧
        v.blocks (q + i - 1) = { u.blocks (q + i - 1) with child := q + i } ∧
        (∀ j, i ≤ j → j < i + rem →
          v.blocks (q + j) =
            { data := msgData mid c0 p tid sigma msg len j,
              previous := q + j - 1, sibling := 0,
              child := if j = i + rem - 1 then 0 else q + j + 1 }) ∧
        v.root = u.root ∧ v.tls = u.tls ∧ v.sink = u.sink ∧ v.hasWrite = u.hasWrite ∧
        v.enabled = u.enabled ∧ v.nowTick = u.nowTick ∧ v.ground = u.ground ∧
        v.cpu = u.cpu := by
  intro rem
  induction rem with
  | zero =>
    intro k i u q n mid p tid sigma msg len c0 hq hi hlen hrem hk hcap hfresh hcounter
      hproc hthread hstart hendt hchild0
    omega
  | succ rem' ih =>
    intro k i u q n mid p tid sigma msg len c0 hq hi hlen hrem hk hcap hfresh hcounter
      hproc hthread hstart hendt hchild0
    cases k with
    | zero => omega
    | succ k2 =>
    have hi0 : i ≠ 0 := by omega
    have hqi0 : (q + i : Nat) ≠ 0 := by omega
    have hfree : u.free.slot = q + i := by
      have h1 := hfresh.1
      rw [if_pos (by omega : q + i < n)] at h1
      exact h1
    have hD : msgData mid c0 p tid sigma msg len i =
        { id := mid + 1, parentid := (u.blocks (q + i - 1)).data.endt,
          processor := (u.blocks q).data.processor,
          thread := (u.blocks q).data.thread,
          start := (u.blocks q).data.start,
          endt := ((u.counter + 1 : Nat) : Int),
          name := copyName (msg.drop (25 * i)) (len - 25 * i) } := by
      dsimp only [msgData]
      rw [if_neg hi0, if_neg hi0, hendt, hproc, hthread, hstart, hcounter]
    rw [messageLoop_step k2 q mid (msg.drop (25 * i)) (len - 25 * i) (q + i - 1) (q + i) u
      (msgData mid c0 p tid sigma msg len i) (by omega) hfree hqi0 (by omega) (by omega)
      hD hchild0]
    have hsubne : (q + i - 1 : Nat) ≠ q + i := by omega
    have hWsub : (stepState u (q + i) (q + i - 1) (msgData mid c0 p tid sigma msg len i)).blocks
        (q + i - 1) = { u.blocks (q + i - 1) with child := q + i } :=
      stepState_blocks_sub u (q + i) (q + i - 1) _ hsubne
    have hWc : (stepState u (q + i) (q + i - 1) (msgData mid c0 p tid sigma msg len i)).blocks
        (q + i) =
        { data := msgData mid c0 p tid sigma msg len i,
          previous := q + i - 1, sibling := 0, child := 0 } :=
      stepState_blocks_c u (q + i) (q + i - 1) _ hsubne
    have hWother : ∀ x, x ≠ q + i → x ≠ q + i - 1 →
        (stepState u (q + i) (q + i - 1) (msgData mid c0 p tid sigma msg len i)).blocks x =
          u.blocks x := fun x h1 h2 =>
      stepState_blocks_other u (q + i) (q + i - 1) _ x h1 h2
    have hWcnt : (stepState u (q + i) (q + i - 1)
        (msgData mid c0 p tid sigma msg len i)).counter = u.counter + 1 :=
      stepState_counter u (q + i) (q + i - 1) _
    have hWfresh : FreshFrom
        (stepState u (q + i) (q + i - 1) (msgData mid c0 p tid sigma msg len i))
        (q + i + 1) n :=
      stepState_fresh u (q + i) n (q + i - 1) _ hfresh (by omega) (by omega)
    obtain ⟨hWroot, hWtls, hWsink, hWhw, hWen, hWnt, hWg, hWcpu⟩ :=
      stepState_misc u (q + i) (q + i - 1) (msgData mid c0 p tid sigma msg len i)
    have hWq : ((stepState u (q + i) (q + i - 1)
        (msgData mid c0 p tid sigma msg len i)).blocks q).data = (u.blocks q).data :=
      stepState_blocks_data u (q + i) (q + i - 1) _ q (by omega)
    by_cases hrem0 : rem' = 0
    · subst hrem0
      have h25 : len - 25 * i ≤ 25 := by omega
      rw [if_neg (by omega : ¬(len - 25 * i > 25))]
      cases k2 with
      | zero => omega
      | succ k3 =>
      have hdone : messageLoop (k3 + 1) q mid ((msg.drop (25 * i)).drop 25) 0 (q + i)
          (stepState u (q + i) (q + i - 1) (msgData mid c0 p tid sigma msg len i)) =
          some (stepState u (q + i) (q + i - 1) (msgData mid c0 p tid sigma msg len i),
            true) := by
        dsimp only [messageLoop]
        rw [if_pos rfl]
      refine ⟨_, hdone, ?_, ?_, ?_, ?_, ?_, ?_, ?_, ?_, ?_, ?_, ?_, ?_, ?_⟩
      · exact (by rw [hWcnt, hcounter] :
          (stepState u (q + i) (q + i - 1) (msgData mid c0 p tid sigma msg len i)).counter =
            c0 + i + 1)
      · exact hWfresh
      · intro x hx1 hx2
        exact hWother x (by omega) hx1
      · exact hWsub
      · intro j hj1 hj2
        have hji : j = i := by omega
        rw [hji, if_pos (by omega : i = i + (0 + 1) - 1)]
        exact hWc
      · exact hWroot
      · exact hWtls
      · exact hWsink
      · exact hWhw
      · exact hWen
      · exact hWnt
      · exact hWg
      · exact hWcpu
    · have h26 : 25 < len - 25 * i := by omega
      rw [if_pos (by omega : len - 25 * i > 25)]
      rw [List.drop_drop]
      rw [show 25 * i + 25 = 25 * (i + 1) from by omega]
      rw [show len - 25 * i - 25 = len - 25 * (i + 1) from by omega]
      have hWcnt2 : (stepState u (q + i) (q + i - 1)
          (msgData mid c0 p tid sigma msg len i)).counter = c0 + (i + 1) := by
        rw [hWcnt, hcounter]
        omega
      have hprocW : ((stepState u (q + i) (q + i - 1)
          (msgData mid c0 p tid sigma msg len i)).blocks q).data.processor = p := by
        rw [hWq]
        exact hproc
      have hthreadW : ((stepState u (q + i) (q + i - 1)
          (msgData mid c0 p tid sigma msg len i)).blocks q).data.thread = tid := by
        rw [hWq]
        exact hthread
      have hstartW : ((stepState u (q + i) (q + i - 1)
          (msgData mid c0 p tid sigma msg len i)).blocks q).data.start = sigma := by
        rw [hWq]
        exact hstart
      have hendtW : ((stepState u (q + i) (q + i - 1)
          (msgData mid c0 p tid sigma msg len i)).blocks (q + (i + 1) - 1)).data.endt =
          ((c0 + (i + 1) : Nat) : Int) := by
        show ((stepState u (q + i) (q + i - 1)
          (msgData mid c0 p tid sigma msg len i)).blocks (q + i)).data.endt = _
        rw [hWc]
        dsimp only [msgData]
        rfl
      have hchild0W : ((stepState u (q + i) (q + i - 1)
          (msgData mid c0 p tid sigma msg len i)).blocks (q + (i + 1) - 1)).child = 0 := by
        show ((stepState u (q + i) (q + i - 1)
          (msgData mid c0 p tid sigma msg len i)).blocks (q + i)).child = 0
        rw [hWc]
      obtain ⟨v, hrun, hcnt, hfr, hframe, hsub, hrecs, hroot2, htls2, hsink2, hw2, hen2,
          hnt2, hg2, hcpu2⟩ :=
        ih k2 (i + 1) (stepState u (q + i) (q + i - 1) (msgData mid c0 p tid sigma msg len i))
          q n mid p tid sigma msg len c0 hq (by omega) (by omega) (by omega) (by omega)
          (by omega) hWfresh hWcnt2 hprocW hthreadW hstartW hendtW hchild0W
      refine ⟨v, hrun, ?_, ?_, ?_, ?_, ?_, ?_, ?_, ?_, ?_, ?_, ?_, ?_, ?_⟩
      · exact hcnt.trans (by omega)
      · have e : q + i + (rem' + 1) = q + (i + 1) + rem' := by omega
        rw [e]
        exact hfr
      · intro x hx1 hx2
        have e1 : v.blocks x = (stepState u (q + i) (q + i - 1)
            (msgData mid c0 p tid sigma msg len i)).blocks x :=
          hframe x (by omega) (by omega)
        rw [e1]
        exact hWother x (by omega) hx1
      · have e1 : v.blocks (q + i - 1) = (stepState u (q + i) (q + i - 1)
            (msgData mid c0 p tid sigma msg len i)).blocks (q + i - 1) :=
          hframe (q + i - 1) (by omega) (by omega)
        rw [e1]
        exact hWsub
      · intro j hj1 hj2
        by_cases hji : j = i
        · rw [hji, if_neg (by omega : ¬(i = i + (rem' + 1) - 1))]
          have e1 : v.blocks (q + i) =
              { (stepState u (q + i) (q + i - 1)
                  (msgData mid c0 p tid sigma msg len i)).blocks (q + i) with
                child := q + i + 1 } := hsub
          rw [e1, hWc]
        · have h5 := hrecs j (by omega) (by omega)
          rw [show i + 1 + rem' - 1 = i + (rem' + 1) - 1 from by omega] at h5
          exact h5
      · exact hroot2.trans hWroot
      · exact htls2.trans hWtls
      · exact hsink2.trans hWsink
      · exact hw2.trans hWhw
      · exact hen2.trans hWen
      · exact hnt2.trans hWnt
      · exact hg2.trans hWg
      · exact hcpu2.trans hWcpu

theorem emitStep_root (s : PState) (b : Nat) : (emitStep s b).root = s.root :=
  (emitStep_core s b).2.2.2.1

theorem emitStep_enabled (s : PState) (b : Nat) : (emitStep s b).enabled = s.enabled :=
  (emitStep_core s b).2.2.2.2.2.2.1

theorem updB_root (s : PState) (i : Nat) (blk : PBlock) : (updB s i blk).root = s.root := rfl

theorem updB_enabled (s : PState) (i : Nat) (blk : PBlock) :
    (updB s i blk).enabled = s.enabled := rfl

theorem freeBlockChain_root (s : PState) (a c : Nat) : (freeBlockChain s a c).root = s.root :=
  rfl

theorem freeBlockChain_enabled (s : PState) (a c : Nat) :
    (freeBlockChain s a c).enabled = s.enabled := rfl

theorem processBlock_pres {α : Type} (g : PState → α)
    (hgE : ∀ s b, g (emitStep s b) = g s) (hgU : ∀ s i blk, g (updB s i blk) = g s) :
    ∀ (fuel : Nat) (s : PState) (b : Nat) (s1 : PState) (leaf : Nat),
      processBlock fuel s b = some (s1, leaf) → g s1 = g s := by
  intro fuel
  induction fuel with
  | zero => intro s b s1 leaf h; cases h
  | succ k ih =>
    intro s b s1 leaf h
    dsimp only [processBlock] at h
    by_cases hc : ((emitStep s b).blocks b).child ≠ 0
    · rw [if_pos hc] at h
      rcases hrec : processBlock k (emitStep s b) ((emitStep s b).blocks b).child with
        _ | ⟨p2, leaf2⟩
      · rw [hrec] at h; cases h
      · rw [hrec] at h
        dsimp only at h
        by_cases hs : (p2.blocks b).sibling ≠ 0
        · rw [if_pos hs] at h
          rcases hrec2 : processBlock k p2 (p2.blocks b).sibling with _ | ⟨p3, leaf3⟩
          · rw [hrec2] at h; cases h
          · rw [hrec2] at h
            dsimp only at h
            cases h
            rw [hgU, hgU, hgU, ih _ _ _ _ hrec2, ih _ _ _ _ hrec, hgE]
        · rw [if_neg hs] at h
          cases h
          rw [ih _ _ _ _ hrec, hgE]
    · rw [if_neg hc] at h
      by_cases hs : ((emitStep s b).blocks b).sibling ≠ 0
      · rw [if_pos hs] at h
        rcases hrec : processBlock k (emitStep s b) ((emitStep s b).blocks b).sibling with
          _ | ⟨p2, leaf2⟩
        · rw [hrec] at h; cases h
        · rw [hrec] at h
          dsimp only at h
          cases h
          rw [hgU, hgU, ih _ _ _ _ hrec, hgE]
      · rw [if_neg hs] at h
        cases h
        exact hgE s b

theorem processRootLoop_pres {α : Type} (g : PState → α)
    (hgE : ∀ s b, g (emitStep s b) = g s) (hgU : ∀ s i blk, g (updB s i blk) = g s)
    (hgF : ∀ s a c, g (freeBlockChain s a c) = g s) :
    ∀ (fuel : Nat) (s : PState) (b : Nat) (s1 : PState),
      processRootLoop fuel s b = some s1 → g s1 = g s := by
  intro fuel
  induction fuel with
  | zero => intro s b s1 h; cases h
  | succ k ih =>
    intro s b s1 h
    dsimp only [processRootLoop] at h
    split at h
    · cases h; rfl
    · split at h
      · cases h
      · rename_i p2 hp2
        have h2 := processBlock_pres g hgE hgU k _ _ _ _ hp2
        have h3 := ih _ _ _ h
        rw [h3, hgF, h2, hgU]

theorem processRootBlock_root (fuel : Nat) (s s1 : PState)
    (h : processRootBlock fuel s = some s1) : s1.root = 0 := by
  dsimp only [processRootBlock] at h
  split at h
  · rename_i h0
    rw [processRootLoop_pres (fun t => t.root) emitStep_root updB_root freeBlockChain_root
      fuel _ _ _ h]
    exact h0
  · rw [processRootLoop_pres (fun t => t.root) emitStep_root updB_root freeBlockChain_root
      fuel _ _ _ h]

theorem processRootBlock_enabled (fuel : Nat) (s s1 : PState)
    (h : processRootBlock fuel s = some s1) : s1.enabled = s.enabled := by
  dsimp only [processRootBlock] at h
  split at h
  · exact processRootLoop_pres (fun t => t.enabled) emitStep_enabled updB_enabled
      freeBlockChain_enabled fuel _ _ _ h
  · rw [processRootLoop_pres (fun t => t.enabled) emitStep_enabled updB_enabled
      freeBlockChain_enabled fuel _ _ _ h]

theorem threadFinalizeLoop_disabled :
    ∀ (fuel tid last : Nat) (s s2 : PState), s.enabled = false →
      threadFinalizeLoop fuel tid last s = some s2 → s2 = s := by
  intro fuel
  induction fuel with
  | zero => intro tid last s s2 _ h; cases h
  | succ k ih =>
    intro tid last s s2 hen h
    dsimp only [threadFinalizeLoop] at h
    by_cases hb : s.tls tid = 0
    · rw [if_pos hb] at h
      cases h
      rfl
    · rw [if_neg hb] at h
      by_cases hl : last = s.tls tid
      · rw [if_pos hl] at h
        cases h
        rfl
      · rw [if_neg hl] at h
        cases k with
        | zero => dsimp only [endBlockF] at h; cases h
        | succ k2 =>
          rw [endBlockF_disabled k2 tid s hen] at h
          dsimp only at h
          exact ih tid (s.tls tid) s s2 hen h

/-- Claim C7: whenever profile_finalize completes on an enabled engine with an
installed writer — quiescent or not — the records of the final drain (the
one last processRootBlock run when the root head is nonzero) are flushed
first and the end-of-stream terminator, the 64-byte all-zero record with
id 0, is appended as the very last record of the sink; afterwards the enable
flag is cleared and every producer entry point is a no-op, so nothing is ever
written after the terminator.  Leftover open blocks cannot write either:
_profile_thread_finalize calls profile_end_block only after the flag is
already down, so its cleanup loop leaves the state untouched. -/
theorem claim_C7_terminator (fuel tid : Nat) (s s1 : PState)
    (hen : s.enabled = true) (hw : s.hasWrite = true)
    (hfin : finalizeF fuel tid s = some s1) :
    (∃ sd, (if s.root ≠ 0 then processRootBlock fuel s else some s) = some sd ∧
      s1.sink = sd.sink ++ [terminatorBlock]) ∧
    s1.sink.getLast? = some terminatorBlock ∧ s1.enabled = false ∧
    (∀ tid2 msg len, beginBlock tid2 msg len s1 = s1) ∧
    (∀ f2 tid2, endBlockF (f2 + 1) tid2 s1 = some s1) ∧
    (∀ f2 tid2 msg len, profileLogF f2 tid2 msg len s1 = some s1) ∧
    (∀ f2 tid2 c, endFrameF f2 tid2 c s1 = some s1) ∧
    (∀ f2 tid2, updateBlockF f2 tid2 s1 = some s1) ∧
    (∀ f2 tid2 msg len, profileTrylockF f2 tid2 msg len s1 = some s1 ∧
      profileLockF f2 tid2 msg len s1 = some s1 ∧
      profileUnlockF f2 tid2 msg len s1 = some s1 ∧
      profileWaitF f2 tid2 msg len s1 = some s1 ∧
      profileSignalF f2 tid2 msg len s1 = some s1) := by
  dsimp only [finalizeF] at hfin
  rcases he : enableOffF fuel s with _ | sA
  · rw [he] at hfin
    cases hfin
  · rw [he] at hfin
    dsimp only at hfin
    dsimp only [enableOffF] at he
    rw [if_pos hen] at he
    rcases hio : ioExitTail fuel s with _ | sB
    · rw [hio] at he
      cases he
    · rw [hio] at he
      dsimp only at he
      have hA : sA = { sB with enabled := false } := (Option.some.inj he).symm
      dsimp only [ioExitTail] at hio
      rcases hdr : (if s.root ≠ 0 then processRootBlock fuel s else some s) with _ | sd
      · rw [hdr] at hio
        cases hio
      · rw [hdr] at hio
        dsimp only at hio
        have hdw : sd.hasWrite = true := by
          by_cases hr : s.root ≠ 0
          · rw [if_pos hr] at hdr
            exact (processRootBlock_hasWrite fuel s sd hdr).trans hw
          · rw [if_neg hr] at hdr
            cases hdr
            exact hw
        rw [if_pos hdw] at hio
        have hB : sB = { sd with sink := sd.sink ++ [terminatorBlock] } :=
          (Option.some.inj hio).symm
        have hsAen : sA.enabled = false := by rw [hA]
        have hsAsink : sA.sink = sd.sink ++ [terminatorBlock] := by
          rw [hA, hB]
        have hsdroot : sd.root = 0 := by
          by_cases hr : s.root ≠ 0
          · rw [if_pos hr] at hdr
            exact processRootBlock_root fuel s sd hdr
          · rw [if_neg hr] at hdr
            cases hdr
            exact not_not.mp hr
        have hsAroot : sA.root = 0 := by
          rw [hA, hB]
          exact hsdroot
        rcases htf : threadFinalizeF fuel tid sA with _ | s2
        · rw [htf] at hfin
          cases hfin
        · rw [htf] at hfin
          dsimp only at hfin
          have hs2 : s2 = sA := by
            dsimp only [threadFinalizeF] at htf
            exact threadFinalizeLoop_disabled fuel tid 0 sA s2 hsAen htf
          subst hs2
          rw [if_neg (fun hcon => hcon hsAroot)] at hfin
          dsimp only at hfin
          have h1 : s1 =
              { s2 with root := 0, free := { slot := 0, tag := 0 }, numBlocks := 0 } :=
            (Option.some.inj hfin).symm
          have hs1sink : s1.sink = sd.sink ++ [terminatorBlock] := by
            rw [h1]
            exact hsAsink
          have hs1en : s1.enabled = false := by
            rw [h1]
            exact hsAen
          refine ⟨⟨sd, rfl, hs1sink⟩, ?_, hs1en, ?_, ?_, ?_, ?_, ?_, ?_⟩
          · rw [hs1sink]
            simp
          · intro tid2 msg len
            exact beginBlock_disabled tid2 msg len _ hs1en
          · intro f2 tid2
            exact endBlockF_disabled f2 tid2 _ hs1en
          · intro f2 tid2 msg len
            exact profileLogF_disabled f2 tid2 msg len _ hs1en
          · intro f2 tid2 c
            exact endFrameF_disabled f2 tid2 c _ hs1en
          · intro f2 tid2
            exact updateBlockF_disabled f2 tid2 _ hs1en
          · intro f2 tid2 msg len
            exact ⟨profileTrylockF_disabled f2 tid2 msg len _ hs1en,
              profileLockF_disabled f2 tid2 msg len _ hs1en,
              profileUnlockF_disabled f2 tid2 msg len _ hs1en,
              profileWaitF_disabled f2 tid2 msg len _ hs1en,
              profileSignalF_disabled f2 tid2 msg len _ hs1en⟩

/-- Witness for claim C7 at a concrete non-quiescent shutdown: the engine
holds one completed tree on the root list when finalize runs, so the final
drain writes its records and the terminator still comes last. -/
theorem claim_C7_witness :
    ∃ s1, finalizeF 6 7 ioWitnessState = some s1 ∧
      s1.sink.getLast? = some terminatorBlock ∧ s1.enabled = false ∧
      ioWitnessState.root ≠ 0 ∧ ioWitnessState.enabled = true := by
  rcases hrun : finalizeF 6 7 ioWitnessState with _ | s1
  · have hsome : (finalizeF 6 7 ioWitnessState).isSome = true := by decide
    rw [hrun] at hsome
    cases hsome
  · have h := claim_C7_terminator 6 7 ioWitnessState s1 (by decide) (by decide) hrun
    exact ⟨s1, rfl, h.2.1, h.2.2.1, by decide, by decide⟩

theorem allocate_pop (s : PState) (hfree : s.free.slot ≠ 0) :
    allocate s = (some s.free.slot, allocState s s.free.slot) := by
  dsimp only [allocate, allocState]
  rw [if_neg hfree]

/-- A freshly built nested span record, as written by the else branch of
profile_begin_block: payload with the parent's id in parentid, previous link
to the parent, no sibling (the parent had no child yet) and no child. -/
def childSpanBlock (c : Nat) (pid : Int) (p tid : Nat) (sigma : Int) (msg : List Nat)
    (len : Nat) (par : Nat) : PBlock :=
  { data := { zeroData with id := ((c : Nat) : Int), parentid := pid,
                            name := copyName msg len, processor := p, thread := tid,
                            start := sigma },
    previous := par, sibling := 0, child := 0 }

theorem beginBlock_nested (s : PState) (tid : Nat) (msg : List Nat) (len : Nat) (par : Nat)
    (hen : s.enabled = true) (htls : s.tls tid = par) (hpar : par ≠ 0)
    (hfree : s.free.slot ≠ 0) (hne : par ≠ s.free.slot)
    (hpchild : (s.blocks par).child = 0) :
    beginBlock tid msg len s =
      { s with loopid := s.loopid + 1,
               free := { slot := (s.blocks s.free.slot).child,
                         tag := (s.loopid + 1) % 65536 },
               counter := s.counter + 1,
               blocks := Function.update
                 (Function.update s.blocks s.free.slot
                   (childSpanBlock (s.counter + 1) ((s.blocks par).data.id) s.cpu tid
                     (s.nowTick - s.ground) msg len par))
                 par { s.blocks par with child := s.free.slot },
               tls := Function.update s.tls tid s.free.slot } := by
  dsimp only [beginBlock]
  rw [if_neg (show ¬((!s.enabled) = true) from by rw [hen]; decide)]
  rw [htls, if_neg hpar, allocate_pop s hfree]
  dsimp only
  rw [allocState_blocks_other s s.free.slot par hne, hpchild]
  rw [if_neg (fun h => h rfl : ¬((0 : Nat) ≠ 0))]
  dsimp only [updB, allocState]
  simp only [Function.update_same, Function.update_idem]
  rw [Function.update_noteq hne]
  rfl

theorem endBlockF_nested (t : PState) (tid b par : Nat) (hen : t.enabled = true)
    (htls : t.tls tid = b) (hb : b ≠ 0) (hprev : (t.blocks b).previous = par)
    (hpar : par ≠ 0) (hwalk : (t.blocks par).child = b)
    (hproc : (t.blocks par).data.processor = t.cpu) :
    endBlockF 2 tid t =
      some { stampEnd t b with tls := Function.update t.tls tid par } := by
  show endBlockF (1 + 1) tid t = _
  dsimp only [endBlockF]
  rw [if_neg (show ¬((!t.enabled) = true) from by rw [hen]; decide)]
  rw [htls, if_neg hb]
  have h1 : ((stampEnd t b).blocks b).previous = par := by
    rw [stampEnd_previous]
    exact hprev
  rw [h1, if_pos hpar]
  have hpw : parentWalk 1 (stampEnd t b).blocks b = some par := by
    show parentWalk (0 + 1) (stampEnd t b).blocks b = _
    dsimp only [parentWalk]
    rw [h1]
    rw [show ((stampEnd t b).blocks par).child = b from by rw [stampEnd_child]; exact hwalk]
    rw [if_pos rfl]
  rw [hpw]
  dsimp only
  have hp2 : ((stampEnd t b).blocks par).data.processor = t.cpu := by
    rw [stampEnd_processor]
    exact hproc
  have hcpu : ({ stampEnd t b with
      tls := Function.update (stampEnd t b).tls tid par } : PState).cpu = t.cpu := rfl
  rw [if_neg (fun hcon => hcon (hp2.trans hcpu.symm))]
  rw [stampEnd_tls]

theorem drain_pair (t : PState) (b1 b2 : Nat) (hb1 : b1 ≠ 0) (hb2 : b2 ≠ 0)
    (hne : b1 ≠ b2) (hroot : t.root = b1) (hsib1 : (t.blocks b1).sibling = 0)
    (hchild1 : (t.blocks b1).child = b2) (hsib2 : (t.blocks b2).sibling = 0)
    (hchild2 : (t.blocks b2).child = 0) (hw : t.hasWrite = true) :
    ∃ t4, processRootBlock 4 t = some t4 ∧
      t4.sink = t.sink ++ [t.blocks b1, t.blocks b2] := by
  dsimp only [processRootBlock]
  rw [hroot, if_neg hb1]
  dsimp only [processRootLoop]
  rw [if_neg hb1]
  have heta : ({ t.blocks b1 with sibling := 0 } : PBlock) = t.blocks b1 := by rw [← hsib1]
  have hS1 : updB { t with root := 0 } b1
      { ({ t with root := 0 } : PState).blocks b1 with sibling := 0 } =
      ({ t with root := 0 } : PState) := by
    show updB { t with root := 0 } b1 { t.blocks b1 with sibling := 0 } = _
    rw [heta]
    simp [updB, Function.update_eq_self]
  rw [hS1]
  have hag : STree.agreesB ({ t with root := 0 } : PState).blocks
      (STree.mk b1 (STree.mk b2 STree.nil STree.nil) STree.nil) = true := by
    show STree.agreesB t.blocks _ = true
    dsimp only [STree.agreesB, STree.headSlot]
    simp only [Bool.and_eq_true, bne_iff_ne, beq_iff_eq]
    exact ⟨⟨⟨⟨hb1, hchild1⟩, hsib1⟩, ⟨⟨⟨⟨hb2, hchild2⟩, hsib2⟩, trivial⟩, trivial⟩⟩, trivial⟩
  have hnd : (STree.mk b1 (STree.mk b2 STree.nil STree.nil) STree.nil).slots.Nodup := by
    show ([b1, b2] : List Nat).Nodup
    simp [hne]
  obtain ⟨st', hps, hsink, _, _, _, _⟩ := processBlock_spec
    (STree.mk b1 (STree.mk b2 STree.nil STree.nil) STree.nil) 3 ({ t with root := 0 })
    (by intro h; cases h) hag hnd (show (1 + (1 + 0 + 0) + 0 : Nat) ≤ 3 by omega)
  dsimp only [STree.headSlot, STree.leaf] at hps
  rw [hps]
  dsimp only
  rw [if_pos hsib1]
  refine ⟨_, rfl, ?_⟩
  rw [freeBlockChain_sink, hsink]
  show t.sink ++ emitList t.hasWrite t.blocks
      (STree.slots (STree.mk b1 (STree.mk b2 STree.nil STree.nil) STree.nil)) =
    t.sink ++ [t.blocks b1, t.blocks b2]
  rw [hw, emitList_true]
  rfl

/-- A nested span record at the moment its end tick tau has been stamped. -/
def endedChildBlock (c : Nat) (pid : Int) (p tid : Nat) (sigma tau : Int) (msg : List Nat)
    (len : Nat) (par : Nat) : PBlock :=
  { childSpanBlock c pid p tid sigma msg len par with
    data := { (childSpanBlock c pid p tid sigma msg len par).data with endt := tau } }

/-- A parent span record as the drain sees it: ended payload, first child
installed, no sibling, no previous (it was an outermost block). -/
def endedParentBlock (c : Nat) (p tid : Nat) (sigma tau : Int) (msg : List Nat)
    (len : Nat) (child : Nat) : PBlock :=
  { data := { spanData c p tid sigma msg len with endt := tau },
    previous := 0, sibling := 0, child := child }

theorem nestedSpanRun (s : PState) (tid b1 b2 : Nat) (pmsg msg : List Nat)
    (plen len d1 d2 : Nat)
    (hen : s.enabled = true) (hw : s.hasWrite = true) (hroot : s.root = 0)
    (htls : s.tls tid = 0) (hb1 : s.free.slot = b1) (hb2 : (s.blocks b1).child = b2)
    (hb1z : b1 ≠ 0) (hb2z : b2 ≠ 0) (hne : b1 ≠ b2) :
    ∃ s3 s5 s6,
      endBlockF 2 tid (tickClock d1
        (beginBlock tid msg len (beginBlock tid pmsg plen s))) = some s3 ∧
      endBlockF 1 tid (tickClock d2 s3) = some s5 ∧
      processRootBlock 4 s5 = some s6 ∧
      s6.sink = s.sink ++
        [endedParentBlock (s.counter + 1) s.cpu tid (s.nowTick - s.ground)
          (s.nowTick + (d1 : Int) + (d2 : Int) - s.ground) pmsg plen b2,
         endedChildBlock (s.counter + 2) ((s.counter + 1 : Nat) : Int) s.cpu tid
          (s.nowTick - s.ground) (s.nowTick + (d1 : Int) - s.ground) msg len b1] := by
  have hfreeS : s.free.slot ≠ 0 := by rw [hb1]; exact hb1z
  set S1 : PState := { s with
      loopid := s.loopid + 1,
      free := { slot := b2, tag := (s.loopid + 1) % 65536 },
      counter := s.counter + 1,
      blocks := Function.update s.blocks b1
        (spanBlock (s.counter + 1) s.cpu tid (s.nowTick - s.ground) pmsg plen),
      tls := Function.update s.tls tid b1 } with hS1
  have hstep1 : beginBlock tid pmsg plen s = S1 := by
    rw [beginBlock_top s tid pmsg plen hen htls hfreeS, hb1, hb2, hS1]
  have hS1en : S1.enabled = true := hen
  have hS1tls : S1.tls tid = b1 := by
    show Function.update s.tls tid b1 tid = b1
    rw [Function.update_same]
  have hS1fs : S1.free.slot = b2 := rfl
  have hS1b1 : S1.blocks b1 =
      spanBlock (s.counter + 1) s.cpu tid (s.nowTick - s.ground) pmsg plen := by
    show Function.update s.blocks b1
      (spanBlock (s.counter + 1) s.cpu tid (s.nowTick - s.ground) pmsg plen) b1 = _
    rw [Function.update_same]
  have hS1pch : (S1.blocks b1).child = 0 := by
    rw [hS1b1]
    rfl
  have hS1id : (S1.blocks b1).data.id = ((s.counter + 1 : Nat) : Int) := by
    rw [hS1b1]
    rfl
  set S2 : PState := { S1 with
      loopid := S1.loopid + 1,
      free := { slot := (S1.blocks b2).child, tag := (S1.loopid + 1) % 65536 },
      counter := S1.counter + 1,
      blocks := Function.update (Function.update S1.blocks b2
          (childSpanBlock (S1.counter + 1) ((S1.blocks b1).data.id) S1.cpu tid
            (S1.nowTick - S1.ground) msg len b1)) b1 { S1.blocks b1 with child := b2 },
      tls := Function.update S1.tls tid b2 } with hS2
  have hstep1b : beginBlock tid msg len S1 = S2 := by
    rw [beginBlock_nested S1 tid msg len b1 hS1en hS1tls hb1z
      (by rw [hS1fs]; exact hb2z) (by rw [hS1fs]; exact hne) hS1pch, hS1fs, hS2]
  set T1 : PState := tickClock d1 S2 with hT1
  have e1 : T1.enabled = true := hen
  have e2 : T1.tls tid = b2 := by
    show Function.update S1.tls tid b2 tid = b2
    rw [Function.update_same]
  have eT1b2 : T1.blocks b2 = childSpanBlock (S1.counter + 1) ((S1.blocks b1).data.id)
      S1.cpu tid (S1.nowTick - S1.ground) msg len b1 := by
    show Function.update (Function.update S1.blocks b2
        (childSpanBlock (S1.counter + 1) ((S1.blocks b1).data.id) S1.cpu tid
          (S1.nowTick - S1.ground) msg len b1)) b1 { S1.blocks b1 with child := b2 } b2 = _
    rw [Function.update_noteq (Ne.symm hne), Function.update_same]
  have eT1b1 : T1.blocks b1 = { S1.blocks b1 with child := b2 } := by
    show Function.update (Function.update S1.blocks b2
        (childSpanBlock (S1.counter + 1) ((S1.blocks b1).data.id) S1.cpu tid
          (S1.nowTick - S1.ground) msg len b1)) b1 { S1.blocks b1 with child := b2 } b1 = _
    rw [Function.update_same]
  have e4 : (T1.blocks b2).previous = b1 := by
    rw [eT1b2]
    rfl
  have e6 : (T1.blocks b1).child = b2 := by
    rw [eT1b1]
  have e7 : (T1.blocks b1).data.processor = T1.cpu := by
    rw [eT1b1]
    show (S1.blocks b1).data.processor = T1.cpu
    rw [hS1b1]
    rfl
  have hstep2 := endBlockF_nested T1 tid b2 b1 e1 e2 hb2z e4 hb1z e6 e7
  set S3 : PState := { stampEnd T1 b2 with
      tls := Function.update T1.tls tid b1 } with hS3
  have hso : ∀ (u : PState) (bb x : Nat), x ≠ bb → (stampEnd u bb).blocks x = u.blocks x := by
    intro u bb x hx
    show Function.update u.blocks bb _ x = u.blocks x
    rw [Function.update_noteq hx]
  have hsame : ∀ (u : PState) (bb : Nat), (stampEnd u bb).blocks bb =
      { u.blocks bb with data :=
        { (u.blocks bb).data with endt := u.nowTick - u.ground } } := by
    intro u bb
    show Function.update u.blocks bb _ bb = _
    rw [Function.update_same]
  set T2 : PState := tickClock d2 S3 with hT2
  have f1 : T2.enabled = true := hen
  have f2 : T2.tls tid = b1 := by
    show Function.update T1.tls tid b1 tid = b1
    rw [Function.update_same]
  have f4 : (T2.blocks b1).previous = 0 := by
    show ((stampEnd T1 b2).blocks b1).previous = 0
    rw [hso T1 b2 b1 hne, eT1b1]
    show (S1.blocks b1).previous = 0
    rw [hS1b1]
    rfl
  have f5 : T2.root = 0 := hroot
  have hstep3 := endBlockF_top T2 tid b1 f1 f2 hb1z f4 f5
  set S5 : PState := { stampEnd T2 b1 with
      root := b1,
      tls := Function.update T2.tls tid 0 } with hS5
  have g1 : (S5.blocks b1).sibling = 0 := by
    show ((stampEnd T2 b1).blocks b1).sibling = 0
    rw [stampEnd_sibling]
    show ((stampEnd T1 b2).blocks b1).sibling = 0
    rw [hso T1 b2 b1 hne, eT1b1]
    show (S1.blocks b1).sibling = 0
    rw [hS1b1]
    rfl
  have g2 : (S5.blocks b1).child = b2 := by
    show ((stampEnd T2 b1).blocks b1).child = b2
    rw [stampEnd_child]
    show ((stampEnd T1 b2).blocks b1).child = b2
    rw [stampEnd_child]
    exact e6
  have g3 : (S5.blocks b2).sibling = 0 := by
    show ((stampEnd T2 b1).blocks b2).sibling = 0
    rw [stampEnd_sibling]
    show ((stampEnd T1 b2).blocks b2).sibling = 0
    rw [stampEnd_sibling]
    rw [eT1b2]
    rfl
  have g4 : (S5.blocks b2).child = 0 := by
    show ((stampEnd T2 b1).blocks b2).child = 0
    rw [stampEnd_child]
    show ((stampEnd T1 b2).blocks b2).child = 0
    rw [stampEnd_child]
    rw [eT1b2]
    rfl
  obtain ⟨S6, hd, hdsink⟩ := drain_pair S5 b1 b2 hb1z hb2z hne rfl g1 g2 g3 g4 hw
  have hrec1 : S5.blocks b1 = endedParentBlock (s.counter + 1) s.cpu tid
      (s.nowTick - s.ground) (s.nowTick + (d1 : Int) + (d2 : Int) - s.ground)
      pmsg plen b2 := by
    show (stampEnd T2 b1).blocks b1 = _
    rw [hsame T2 b1]
    have hT2b1 : T2.blocks b1 = { S1.blocks b1 with child := b2 } := by
      show (stampEnd T1 b2).blocks b1 = _
      rw [hso T1 b2 b1 hne]
      exact eT1b1
    rw [hT2b1, hS1b1]
    rfl
  have hrec2 : S5.blocks b2 = endedChildBlock (s.counter + 2)
      ((s.counter + 1 : Nat) : Int) s.cpu tid (s.nowTick - s.ground)
      (s.nowTick + (d1 : Int) - s.ground) msg len b1 := by
    show (stampEnd T2 b1).blocks b2 = _
    rw [hso T2 b1 b2 (Ne.symm hne)]
    show (stampEnd T1 b2).blocks b2 = _
    rw [hsame T1 b2, eT1b2, hS1id]
    rfl
  refine ⟨S3, S5, S6, ?_, ?_, hd, ?_⟩
  · rw [hstep1, hstep1b]
    exact hstep2
  · exact hstep3
  · rw [hdsink, hrec1, hrec2]
    rfl
/-- Claim C5, amended: every span begun by profile_begin_block with a free
slot available, the engine enabled and a writer installed is matched by
profile_end_block and drained into exactly one record whose id is the id the
begin assigned, whose thread is the originating thread, whose start precedes
its end, and whose name carries the first 25 bytes of the NUL-padded input
name (string_copy reserves the 26th byte of the field for the terminating
NUL). Part one: a top-level span (thread has no open block) round-trips
through the then-branch of begin, the root handoff and the drain. Part two: a
span nested inside it round-trips through the else-branch of begin (which
links it as the parent's first child and stamps the parent's id as its
parentid), the parent walk of profile_end_block (which pops the thread-local
cursor back to the parent), and the drain's tree flatten, which emits parent
then child in preorder. -/
theorem claim_C5_roundtrip (s : PState) (tid b1 b2 : Nat) (pmsg msg : List Nat)
    (plen d d1 d2 : Nat)
    (hen : s.enabled = true) (hw : s.hasWrite = true) (hroot : s.root = 0)
    (htls : s.tls tid = 0) (hb1 : s.free.slot = b1) (hb2 : (s.blocks b1).child = b2)
    (hb1z : b1 ≠ 0) (hb2z : b2 ≠ 0) (hne : b1 ≠ b2) :
    (∃ s3 s4, endBlockF 1 tid (tickClock d (beginBlock tid msg msg.length s)) = some s3 ∧
      processRootBlock 3 s3 = some s4 ∧
      s4.sink = s.sink ++ [endedSpanBlock (s.counter + 1) s.cpu tid (s.nowTick - s.ground)
        (s.nowTick + (d : Int) - s.ground) msg msg.length] ∧
      (endedSpanBlock (s.counter + 1) s.cpu tid (s.nowTick - s.ground)
        (s.nowTick + (d : Int) - s.ground) msg msg.length).data.id =
          ((s.counter + 1 : Nat) : Int) ∧
      (endedSpanBlock (s.counter + 1) s.cpu tid (s.nowTick - s.ground)
        (s.nowTick + (d : Int) - s.ground) msg msg.length).data.thread = tid ∧
      (endedSpanBlock (s.counter + 1) s.cpu tid (s.nowTick - s.ground)
        (s.nowTick + (d : Int) - s.ground) msg msg.length).data.start ≤
        (endedSpanBlock (s.counter + 1) s.cpu tid (s.nowTick - s.ground)
          (s.nowTick + (d : Int) - s.ground) msg msg.length).data.endt ∧
      ((endedSpanBlock (s.counter + 1) s.cpu tid (s.nowTick - s.ground)
        (s.nowTick + (d : Int) - s.ground) msg msg.length).data.name).take 25 =
        (msg ++ List.replicate 25 0).take 25) ∧
    (∃ s3 s5 s6,
      endBlockF 2 tid (tickClock d1
        (beginBlock tid msg msg.length (beginBlock tid pmsg plen s))) = some s3 ∧
      endBlockF 1 tid (tickClock d2 s3) = some s5 ∧
      processRootBlock 4 s5 = some s6 ∧
      s6.sink = s.sink ++
        [endedParentBlock (s.counter + 1) s.cpu tid (s.nowTick - s.ground)
          (s.nowTick + (d1 : Int) + (d2 : Int) - s.ground) pmsg plen b2,
         endedChildBlock (s.counter + 2) ((s.counter + 1 : Nat) : Int) s.cpu tid
          (s.nowTick - s.ground) (s.nowTick + (d1 : Int) - s.ground) msg msg.length b1] ∧
      (endedParentBlock (s.counter + 1) s.cpu tid (s.nowTick - s.ground)
        (s.nowTick + (d1 : Int) + (d2 : Int) - s.ground) pmsg plen b2).data.id =
          ((s.counter + 1 : Nat) : Int) ∧
      (endedChildBlock (s.counter + 2) ((s.counter + 1 : Nat) : Int) s.cpu tid
        (s.nowTick - s.ground) (s.nowTick + (d1 : Int) - s.ground) msg msg.length
          b1).data.id = ((s.counter + 2 : Nat) : Int) ∧
      (endedChildBlock (s.counter + 2) ((s.counter + 1 : Nat) : Int) s.cpu tid
        (s.nowTick - s.ground) (s.nowTick + (d1 : Int) - s.ground) msg msg.length
          b1).data.parentid = ((s.counter + 1 : Nat) : Int) ∧
      (endedChildBlock (s.counter + 2) ((s.counter + 1 : Nat) : Int) s.cpu tid
        (s.nowTick - s.ground) (s.nowTick + (d1 : Int) - s.ground) msg msg.length
          b1).data.thread = tid ∧
      (endedChildBlock (s.counter + 2) ((s.counter + 1 : Nat) : Int) s.cpu tid
        (s.nowTick - s.ground) (s.nowTick + (d1 : Int) - s.ground) msg msg.length
          b1).data.start ≤
        (endedChildBlock (s.counter + 2) ((s.counter + 1 : Nat) : Int) s.cpu tid
          (s.nowTick - s.ground) (s.nowTick + (d1 : Int) - s.ground) msg msg.length
            b1).data.endt ∧
      ((endedChildBlock (s.counter + 2) ((s.counter + 1 : Nat) : Int) s.cpu tid
        (s.nowTick - s.ground) (s.nowTick + (d1 : Int) - s.ground) msg msg.length
          b1).data.name).take 25 = (msg ++ List.replicate 25 0).take 25) := by
  constructor
  · obtain ⟨s3, s4, h3, h4, hsink⟩ :=
      singleSpanRun s tid msg msg.length d hen hw hroot htls (by rw [hb1]; exact hb1z)
    refine ⟨s3, s4, h3, h4, hsink, rfl, rfl, ?_, ?_⟩
    · show s.nowTick - s.ground ≤ s.nowTick + (d : Int) - s.ground
      omega
    · exact copyName_take25 msg
  · obtain ⟨s3, s5, s6, h3, h5, h6, hsink⟩ :=
      nestedSpanRun s tid b1 b2 pmsg msg plen msg.length d1 d2
        hen hw hroot htls hb1 hb2 hb1z hb2z hne
    refine ⟨s3, s5, s6, h3, h5, h6, hsink, rfl, rfl, rfl, rfl, ?_, ?_⟩
    · show s.nowTick - s.ground ≤ s.nowTick + (d1 : Int) - s.ground
      omega
    · exact copyName_take25 msg

/-- Witness for claim C5 at a concrete run: fresh enabled 4-slot pool with a
writer, thread 7, a 3-byte parent name of bytes 80 and a 30-byte child name of
bytes 65, clock advances 5 (single span) and 3 then 4 (nested pair). -/
theorem claim_C5_witness :
    (∃ s3 s4, endBlockF 1 7 (tickClock 5 (beginBlock 7 (List.replicate 30 65) (List.replicate 30 65).length (enableOn (profileSetup zeroPool 256 true 10 3)))) = some s3 ∧
      processRootBlock 3 s3 = some s4 ∧
      s4.sink = (enableOn (profileSetup zeroPool 256 true 10 3)).sink ++ [endedSpanBlock ((enableOn (profileSetup zeroPool 256 true 10 3)).counter + 1) (enableOn (profileSetup zeroPool 256 true 10 3)).cpu 7 ((enableOn (profileSetup zeroPool 256 true 10 3)).nowTick - (enableOn (profileSetup zeroPool 256 true 10 3)).ground)
        ((enableOn (profileSetup zeroPool 256 true 10 3)).nowTick + (5 : Int) - (enableOn (profileSetup zeroPool 256 true 10 3)).ground) (List.replicate 30 65) (List.replicate 30 65).length] ∧
      (endedSpanBlock ((enableOn (profileSetup zeroPool 256 true 10 3)).counter + 1) (enableOn (profileSetup zeroPool 256 true 10 3)).cpu 7 ((enableOn (profileSetup zeroPool 256 true 10 3)).nowTick - (enableOn (profileSetup zeroPool 256 true 10 3)).ground)
        ((enableOn (profileSetup zeroPool 256 true 10 3)).nowTick + (5 : Int) - (enableOn (profileSetup zeroPool 256 true 10 3)).ground) (List.replicate 30 65) (List.replicate 30 65).length).data.id =
          (((enableOn (profileSetup zeroPool 256 true 10 3)).counter + 1 : Nat) : Int) ∧
      (endedSpanBlock ((enableOn (profileSetup zeroPool 256 true 10 3)).counter + 1) (enableOn (profileSetup zeroPool 256 true 10 3)).cpu 7 ((enableOn (profileSetup zeroPool 256 true 10 3)).nowTick - (enableOn (profileSetup zeroPool 256 true 10 3)).ground)
        ((enableOn (profileSetup zeroPool 256 true 10 3)).nowTick + (5 : Int) - (enableOn (profileSetup zeroPool 256 true 10 3)).ground) (List.replicate 30 65) (List.replicate 30 65).length).data.thread = 7 ∧
      (endedSpanBlock ((enableOn (profileSetup zeroPool 256 true 10 3)).counter + 1) (enableOn (profileSetup zeroPool 256 true 10 3)).cpu 7 ((enableOn (profileSetup zeroPool 256 true 10 3)).nowTick - (enableOn (profileSetup zeroPool 256 true 10 3)).ground)
        ((enableOn (profileSetup zeroPool 256 true 10 3)).nowTick + (5 : Int) - (enableOn (profileSetup zeroPool 256 true 10 3)).ground) (List.replicate 30 65) (List.replicate 30 65).length).data.start ≤
        (endedSpanBlock ((enableOn (profileSetup zeroPool 256 true 10 3)).counter + 1) (enableOn (profileSetup zeroPool 256 true 10 3)).cpu 7 ((enableOn (profileSetup zeroPool 256 true 10 3)).nowTick - (enableOn (profileSetup zeroPool 256 true 10 3)).ground)
          ((enableOn (profileSetup zeroPool 256 true 10 3)).nowTick + (5 : Int) - (enableOn (profileSetup zeroPool 256 true 10 3)).ground) (List.replicate 30 65) (List.replicate 30 65).length).data.endt ∧
      ((endedSpanBlock ((enableOn (profileSetup zeroPool 256 true 10 3)).counter + 1) (enableOn (profileSetup zeroPool 256 true 10 3)).cpu 7 ((enableOn (profileSetup zeroPool 256 true 10 3)).nowTick - (enableOn (profileSetup zeroPool 256 true 10 3)).ground)
        ((enableOn (profileSetup zeroPool 256 true 10 3)).nowTick + (5 : Int) - (enableOn (profileSetup zeroPool 256 true 10 3)).ground) (List.replicate 30 65) (List.replicate 30 65).length).data.name).take 25 =
        ((List.replicate 30 65) ++ List.replicate 25 0).take 25) ∧
    (∃ s3 s5 s6,
      endBlockF 2 7 (tickClock 3
        (beginBlock 7 (List.replicate 30 65) (List.replicate 30 65).length (beginBlock 7 (List.replicate 3 80) 3 (enableOn (profileSetup zeroPool 256 true 10 3))))) = some s3 ∧
      endBlockF 1 7 (tickClock 4 s3) = some s5 ∧
      processRootBlock 4 s5 = some s6 ∧
      s6.sink = (enableOn (profileSetup zeroPool 256 true 10 3)).sink ++
        [endedParentBlock ((enableOn (profileSetup zeroPool 256 true 10 3)).counter + 1) (enableOn (profileSetup zeroPool 256 true 10 3)).cpu 7 ((enableOn (profileSetup zeroPool 256 true 10 3)).nowTick - (enableOn (profileSetup zeroPool 256 true 10 3)).ground)
          ((enableOn (profileSetup zeroPool 256 true 10 3)).nowTick + (3 : Int) + (4 : Int) - (enableOn (profileSetup zeroPool 256 true 10 3)).ground) (List.replicate 3 80) 3 2,
         endedChildBlock ((enableOn (profileSetup zeroPool 256 true 10 3)).counter + 2) (((enableOn (profileSetup zeroPool 256 true 10 3)).counter + 1 : Nat) : Int) (enableOn (profileSetup zeroPool 256 true 10 3)).cpu 7
          ((enableOn (profileSetup zeroPool 256 true 10 3)).nowTick - (enableOn (profileSetup zeroPool 256 true 10 3)).ground) ((enableOn (profileSetup zeroPool 256 true 10 3)).nowTick + (3 : Int) - (enableOn (profileSetup zeroPool 256 true 10 3)).ground) (List.replicate 30 65) (List.replicate 30 65).length 1] ∧
      (endedParentBlock ((enableOn (profileSetup zeroPool 256 true 10 3)).counter + 1) (enableOn (profileSetup zeroPool 256 true 10 3)).cpu 7 ((enableOn (profileSetup zeroPool 256 true 10 3)).nowTick - (enableOn (profileSetup zeroPool 256 true 10 3)).ground)
        ((enableOn (profileSetup zeroPool 256 true 10 3)).nowTick + (3 : Int) + (4 : Int) - (enableOn (profileSetup zeroPool 256 true 10 3)).ground) (List.replicate 3 80) 3 2).data.id =
          (((enableOn (profileSetup zeroPool 256 true 10 3)).counter + 1 : Nat) : Int) ∧
      (endedChildBlock ((enableOn (profileSetup zeroPool 256 true 10 3)).counter + 2) (((enableOn (profileSetup zeroPool 256 true 10 3)).counter + 1 : Nat) : Int) (enableOn (profileSetup zeroPool 256 true 10 3)).cpu 7
        ((enableOn (profileSetup zeroPool 256 true 10 3)).nowTick - (enableOn (profileSetup zeroPool 256 true 10 3)).ground) ((enableOn (profileSetup zeroPool 256 true 10 3)).nowTick + (3 : Int) - (enableOn (profileSetup zeroPool 256 true 10 3)).ground) (List.replicate 30 65) (List.replicate 30 65).length
          1).data.id = (((enableOn (profileSetup zeroPool 256 true 10 3)).counter + 2 : Nat) : Int) ∧
      (endedChildBlock ((enableOn (profileSetup zeroPool 256 true 10 3)).counter + 2) (((enableOn (profileSetup zeroPool 256 true 10 3)).counter + 1 : Nat) : Int) (enableOn (profileSetup zeroPool 256 true 10 3)).cpu 7
        ((enableOn (profileSetup zeroPool 256 true 10 3)).nowTick - (enableOn (profileSetup zeroPool 256 true 10 3)).ground) ((enableOn (profileSetup zeroPool 256 true 10 3)).nowTick + (3 : Int) - (enableOn (profileSetup zeroPool 256 true 10 3)).ground) (List.replicate 30 65) (List.replicate 30 65).length
          1).data.parentid = (((enableOn (profileSetup zeroPool 256 true 10 3)).counter + 1 : Nat) : Int) ∧
      (endedChildBlock ((enableOn (profileSetup zeroPool 256 true 10 3)).counter + 2) (((enableOn (profileSetup zeroPool 256 true 10 3)).counter + 1 : Nat) : Int) (enableOn (profileSetup zeroPool 256 true 10 3)).cpu 7
        ((enableOn (profileSetup zeroPool 256 true 10 3)).nowTick - (enableOn (profileSetup zeroPool 256 true 10 3)).ground) ((enableOn (profileSetup zeroPool 256 true 10 3)).nowTick + (3 : Int) - (enableOn (profileSetup zeroPool 256 true 10 3)).ground) (List.replicate 30 65) (List.replicate 30 65).length
          1).data.thread = 7 ∧
      (endedChildBlock ((enableOn (profileSetup zeroPool 256 true 10 3)).counter + 2) (((enableOn (profileSetup zeroPool 256 true 10 3)).counter + 1 : Nat) : Int) (enableOn (profileSetup zeroPool 256 true 10 3)).cpu 7
        ((enableOn (profileSetup zeroPool 256 true 10 3)).nowTick - (enableOn (profileSetup zeroPool 256 true 10 3)).ground) ((enableOn (profileSetup zeroPool 256 true 10 3)).nowTick + (3 : Int) - (enableOn (profileSetup zeroPool 256 true 10 3)).ground) (List.replicate 30 65) (List.replicate 30 65).length
          1).data.start ≤
        (endedChildBlock ((enableOn (profileSetup zeroPool 256 true 10 3)).counter + 2) (((enableOn (profileSetup zeroPool 256 true 10 3)).counter + 1 : Nat) : Int) (enableOn (profileSetup zeroPool 256 true 10 3)).cpu 7
          ((enableOn (profileSetup zeroPool 256 true 10 3)).nowTick - (enableOn (profileSetup zeroPool 256 true 10 3)).ground) ((enableOn (profileSetup zeroPool 256 true 10 3)).nowTick + (3 : Int) - (enableOn (profileSetup zeroPool 256 true 10 3)).ground) (List.replicate 30 65) (List.replicate 30 65).length
            1).data.endt ∧
      ((endedChildBlock ((enableOn (profileSetup zeroPool 256 true 10 3)).counter + 2) (((enableOn (profileSetup zeroPool 256 true 10 3)).counter + 1 : Nat) : Int) (enableOn (profileSetup zeroPool 256 true 10 3)).cpu 7
        ((enableOn (profileSetup zeroPool 256 true 10 3)).nowTick - (enableOn (profileSetup zeroPool 256 true 10 3)).ground) ((enableOn (profileSetup zeroPool 256 true 10 3)).nowTick + (3 : Int) - (enableOn (profileSetup zeroPool 256 true 10 3)).ground) (List.replicate 30 65) (List.replicate 30 65).length
          1).data.name).take 25 = ((List.replicate 30 65) ++ List.replicate 25 0).take 25) :=
  claim_C5_roundtrip (enableOn (profileSetup zeroPool 256 true 10 3)) 7 1 2
    (List.replicate 3 80) (List.replicate 30 65) 3 5 3 4
    (by decide) (by decide) (by decide) (by decide) (by decide) (by decide)
    (by decide) (by decide) (by decide)

theorem processRootLoop_succ (fuel : Nat) (s : PState) (block : Nat) :
    processRootLoop (fuel + 1) s block =
      if block = 0 then some s
      else
        match processBlock fuel (updB s block { s.blocks block with sibling := 0 }) block with
        | none => none
        | some (s2, leaf) =>
            processRootLoop fuel (freeBlockChain s2 block leaf)
              ((s.blocks block).sibling) := rfl

/-- Draining a root list holding a single child chain of m + 1 records in
slots q .. q + m emits exactly those records, in slot order. -/
theorem drain_line (t : PState) (q m : Nat) (hq0 : q ≠ 0) (hroot : t.root = q)
    (hblocks : ∀ j, j < m + 1 → (t.blocks (q + j)).sibling = 0 ∧
      (t.blocks (q + j)).child = (if j + 1 = m + 1 then 0 else q + j + 1))
    (hw : t.hasWrite = true) :
    ∃ t4, processRootBlock (m + 2 + 1) t = some t4 ∧
      t4.sink = t.sink ++ (List.range' q (m + 1)).map t.blocks := by
  have hsib0 : (t.blocks q).sibling = 0 := by
    have h := (hblocks 0 (by omega)).1
    rwa [Nat.add_zero] at h
  dsimp only [processRootBlock]
  rw [hroot, if_neg hq0]
  rw [processRootLoop_succ (m + 2) { t with root := 0 } q, if_neg hq0]
  have heta : (updB { t with root := 0 } q
      { ({ t with root := 0 } : PState).blocks q with sibling := 0 }) =
      ({ t with root := 0 } : PState) := by
    show updB { t with root := 0 } q { t.blocks q with sibling := 0 } = _
    rw [show ({ t.blocks q with sibling := 0 } : PBlock) = t.blocks q from by rw [← hsib0]]
    simp [updB, Function.update_eq_self]
  rw [heta]
  have hag : STree.agreesB ({ t with root := 0 } : PState).blocks
      (lineTree q (m + 1)) = true := by
    show STree.agreesB t.blocks _ = true
    exact lineTree_agrees t.blocks (m + 1) q (by omega) (fun j hj => hblocks j hj)
  have hnd : (lineTree q (m + 1)).slots.Nodup := by
    rw [lineTree_slots]
    exact List.nodup_range' q (m + 1)
  obtain ⟨st', hps, hsink, _, _, _, _⟩ := processBlock_spec (lineTree q (m + 1)) (m + 2)
    ({ t with root := 0 }) (lineTree_ne_nil m q) hag hnd (by rw [lineTree_size]; omega)
  have hhead : (lineTree q (m + 1)).headSlot = q := rfl
  rw [hhead] at hps
  rw [hps]
  dsimp only
  rw [show (({ t with root := 0 } : PState).blocks q).sibling = 0 from hsib0]
  rw [processRootLoop_succ (m + 1) (freeBlockChain st' q (lineTree q (m + 1)).leaf) 0,
    if_pos rfl]
  refine ⟨_, rfl, ?_⟩
  rw [freeBlockChain_sink, hsink]
  show t.sink ++ emitList t.hasWrite t.blocks (lineTree q (m + 1)).slots =
    t.sink ++ (List.range' q (m + 1)).map t.blocks
  rw [hw, emitList_true, lineTree_slots]

/-- Payload of the master record of _profile_put_message_block: event id,
zero parent, sequence number counter + 1 in endt, first name segment. -/
def masterData (s : PState) (tid : Nat) (mid : Int) (msg : List Nat) (len : Nat) :
    BlockData :=
  { id := mid
    parentid := 0
    processor := s.cpu
    thread := tid
    start := s.nowTick - s.ground
    endt := ((s.counter + 1 : Nat) : Int)
    name := copyName msg len }

/-- The state after the master-record phase of _profile_put_message_block:
slot q popped off the fresh free list, counter bumped, and the master payload
written into slot q. -/
def masterState (s : PState) (tid : Nat) (mid : Int) (msg : List Nat) (len : Nat)
    (q : Nat) : PState :=
  updB { allocState s q with counter := s.counter + 1 } q
    { (allocState s q).blocks q with data := masterData s tid mid msg len }

theorem putMessageBlock_eq (k tid : Nat) (mid : Int) (msg : List Nat) (len : Nat)
    (s : PState) (q : Nat) (hq : allocate s = (some q, allocState s q))
    (hlen : 25 < len) :
    putMessageBlock k tid mid msg len s =
      match messageLoop k q mid (msg.drop 25) (len - 25) q
        (masterState s tid mid msg len q) with
      | none => none
      | some (s4, false) => some s4
      | some (s4, true) => putSimpleBlock k tid q s4 := by
  dsimp only [putMessageBlock]
  rw [hq]
  dsimp only
  rw [if_pos hlen]
  rfl

theorem masterState_blocks_q (s : PState) (tid : Nat) (mid : Int) (msg : List Nat)
    (len q : Nat) :
    (masterState s tid mid msg len q).blocks q =
      { data := masterData s tid mid msg len
        previous := 0
        sibling := 0
        child := 0 } := by
  show Function.update ({ allocState s q with counter := s.counter + 1 } : PState).blocks q
    { (allocState s q).blocks q with data := masterData s tid mid msg len } q = _
  rw [Function.update_same, allocState_blocks_self]
  rfl

theorem masterState_blocks_other (s : PState) (tid : Nat) (mid : Int) (msg : List Nat)
    (len q x : Nat) (hx : x ≠ q) :
    (masterState s tid mid msg len q).blocks x = s.blocks x := by
  show Function.update ({ allocState s q with counter := s.counter + 1 } : PState).blocks q
    _ x = s.blocks x
  rw [Function.update_noteq hx]
  exact allocState_blocks_other s q x hx

theorem masterState_counter (s : PState) (tid : Nat) (mid : Int) (msg : List Nat)
    (len q : Nat) : (masterState s tid mid msg len q).counter = s.counter + 1 := rfl

theorem masterState_misc (s : PState) (tid : Nat) (mid : Int) (msg : List Nat)
    (len q : Nat) :
    (masterState s tid mid msg len q).root = s.root ∧
    (masterState s tid mid msg len q).tls = s.tls ∧
    (masterState s tid mid msg len q).sink = s.sink ∧
    (masterState s tid mid msg len q).hasWrite = s.hasWrite ∧
    (masterState s tid mid msg len q).enabled = s.enabled ∧
    (masterState s tid mid msg len q).nowTick = s.nowTick ∧
    (masterState s tid mid msg len q).ground = s.ground ∧
    (masterState s tid mid msg len q).cpu = s.cpu :=
  ⟨rfl, rfl, rfl, rfl, rfl, rfl, rfl, rfl⟩

theorem masterState_fresh (s : PState) (tid : Nat) (mid : Int) (msg : List Nat)
    (len q n : Nat) (hf : FreshFrom s q n) (hlt : q < n) :
    FreshFrom (masterState s tid mid msg len q) (q + 1) n := by
  obtain ⟨hfree, h1, hn, hall⟩ := (alloc_fresh s q n hf hlt).2
  refine ⟨?_, h1, hn, ?_⟩
  · show (allocState s q).free.slot = _
    exact hfree
  · intro j hj hj1
    have hne : j ≠ q := by omega
    have e : (masterState s tid mid msg len q).blocks j = s.blocks j :=
      masterState_blocks_other s tid mid msg len q j hne
    have e2 : (allocState s q).blocks j = s.blocks j :=
      allocState_blocks_other s q j hne
    rw [e, ← e2]
    exact hall j hj hj1

/-- Full effect of _profile_put_message_block on an oversized message (len >
MAX_MESSAGE_LENGTH = 25) from a fresh pool with no open block on the calling
thread and an empty root list: it completes, publishes slot q as the root
tree, adds ceil(len / 25) = m records in slots q .. q + m - 1 carrying the
msgData payloads chained through child links, bumps the counter by m, and
touches neither the sink nor the thread-local state. -/
theorem putMessageBlock_spec (k tid : Nat) (mid : Int) (msg : List Nat) (len : Nat)
    (s : PState) (q n m : Nat)
    (hm : m = (len + 24) / 25) (hlen : 25 < len)
    (hf : FreshFrom s q n) (hcap : q + m ≤ n)
    (htls : s.tls tid = 0) (hroot : s.root = 0)
    (hk : m + 1 ≤ k) :
    ∃ w, putMessageBlock k tid mid msg len s = some w ∧
      w.root = q ∧ w.counter = s.counter + m ∧
      w.sink = s.sink ∧ w.tls = s.tls ∧ w.hasWrite = s.hasWrite ∧
      w.enabled = s.enabled ∧ w.nowTick = s.nowTick ∧ w.ground = s.ground ∧
      w.cpu = s.cpu ∧
      (∀ j, j < m → (w.blocks (q + j)).data =
          msgData mid s.counter s.cpu tid (s.nowTick - s.ground) msg len j ∧
        (w.blocks (q + j)).sibling = 0 ∧
        (w.blocks (q + j)).child = (if j + 1 = m then 0 else q + j + 1)) := by
  have hq1 : 1 ≤ q := hf.2.1
  have hm2 : 2 ≤ m := by omega
  have hlt : q < n := by omega
  obtain ⟨v, hloop, hvc, hvfresh, hvother, hvsub, hvj, hvroot, hvtls, hvsink, hvw,
    hven, hvnow, hvg, hvcpu⟩ :=
    messageLoop_spec (m - 1) k 1 (masterState s tid mid msg len q) q n mid s.cpu tid
      (s.nowTick - s.ground) msg len s.counter hq1 (le_refl 1) (by omega) (by omega)
      (by omega) (by omega) (masterState_fresh s tid mid msg len q n hf hlt)
      (masterState_counter s tid mid msg len q)
      (by rw [masterState_blocks_q]; rfl) (by rw [masterState_blocks_q]; rfl)
      (by rw [masterState_blocks_q]; rfl)
      (by show ((masterState s tid mid msg len q).blocks q).data.endt = _
          rw [masterState_blocks_q]
          rfl)
      (by show ((masterState s tid mid msg len q).blocks q).child = _
          rw [masterState_blocks_q])
  rw [show (25 * 1 : Nat) = 25 from rfl, show (q + 1 - 1 : Nat) = q from rfl] at hloop
  rw [show (q + 1 - 1 : Nat) = q from rfl] at hvsub
  rw [putMessageBlock_eq k tid mid msg len s q (alloc_fresh s q n hf hlt).1 hlen, hloop]
  dsimp only [putSimpleBlock]
  have hvtls0 : v.tls tid = 0 := by
    rw [hvtls]
    show s.tls tid = 0
    exact htls
  rw [if_neg (fun h => h hvtls0)]
  dsimp only [putRootBlock]
  have hvroot0 : v.root = 0 := by
    rw [hvroot]
    show s.root = 0
    exact hroot
  rw [hvroot0, if_pos rfl]
  refine ⟨{ v with root := q }, rfl, rfl, ?_, ?_, ?_, ?_, ?_, ?_, ?_, ?_, ?_⟩
  · show v.counter = s.counter + m
    rw [hvc]
    show s.counter + 1 + (m - 1) = s.counter + m
    omega
  · show v.sink = s.sink
    rw [hvsink]
    rfl
  · show v.tls = s.tls
    rw [hvtls]
    rfl
  · show v.hasWrite = s.hasWrite
    rw [hvw]
    rfl
  · show v.enabled = s.enabled
    rw [hven]
    rfl
  · show v.nowTick = s.nowTick
    rw [hvnow]
    rfl
  · show v.ground = s.ground
    rw [hvg]
    rfl
  · show v.cpu = s.cpu
    rw [hvcpu]
    rfl
  · intro j hj
    by_cases hj0 : j = 0
    · subst hj0
      have e : ({ v with root := q } : PState).blocks (q + 0) = v.blocks q := by
        rw [Nat.add_zero]
      rw [e, hvsub, masterState_blocks_q]
      refine ⟨rfl, rfl, ?_⟩
      rw [if_neg (by omega : ¬(0 + 1 = m))]
    · have e : ({ v with root := q } : PState).blocks (q + j) = v.blocks (q + j) := rfl
      rw [e, hvj j (by omega) (by omega)]
      refine ⟨rfl, rfl, ?_⟩
      by_cases hjm : j + 1 = m
      · rw [if_pos (by omega : j = 1 + (m - 1) - 1), if_pos hjm]
      · rw [if_neg (by omega : ¬(j = 1 + (m - 1) - 1)), if_neg hjm]
